import Mathlib

/-!
Verification of the QR-code encoder subsystem of the `webs` repository
(`qrcode` package and its internal `bitset` / `reedsolomon` packages).

The Go sources are shallowly embedded: machine integers become `Nat`
(GF(2^8) elements are naturals in `[0, 255]`), Go slices become `List`,
fallible code returns `Option` / `Except`, and `panic` branches become
`none` / dedicated error values.  Definitions follow the Go source
function by function; a few leaf definitions whose source file is not
part of the provided sources (the GF(2^8) element arithmetic, the bit
vector, and the data encoder) are modelled from the specification, as
their doc comments state.
-/

set_option maxRecDepth 4000

namespace QR

/-! ## GF(2^8) element arithmetic

Modelled from the spec: the source file holding the GF(2^8) element
operations (`gfElement`, `gfAdd`, `gfMultiply`, `gfDivide`, `gfInverse`
and the exp/log tables) is not among the provided sources; only its
tests are.  Per spec §2/§3/§4.1: "GF256 Arithmetic: multiply/divide/
inverse over GF(2^8) via log/antilog tables", "GF Element: integer in
[0,255] under the standard QR primitive polynomial; exp/log tables,
constant".  The standard QR primitive polynomial is
x^8 + x^4 + x^3 + x^2 + 1, i.e. 0x11d = 285, with generator α = 2. -/

/-- Modelled from the spec: multiplication of a GF(2^8) element by the
generator α = x, reducing by the standard QR primitive polynomial 0x11d. -/
def gfDouble (x : Nat) : Nat :=
  if x < 128 then 2 * x else Nat.xor (2 * x) 285

/-- Modelled from the spec: builds `n` consecutive antilog-table entries
starting at the power `x` of α. -/
def gfExpFrom : Nat → Nat → List Nat
  | _, 0 => []
  | x, n + 1 => x :: gfExpFrom (gfDouble x) n

/-- Modelled from the spec: the precomputed antilog table; the byte at
offset `8 * i` is α^i.  As in the reference tables it has 256 entries
(entry 255 wraps to α^255 = 1).  The 256 byte-sized entries are packed
into a single natural number so that kernel-level table lookups are
constant-time; `gfExpTable_generated` below proves the packed entries are
exactly the successive powers of α under the primitive polynomial. -/
def gfExpTable : Nat := 196399186132762991095636190500253616596015235491845904390934131204566729811279907533350396911849308369980407930211792886676177716114413596927226281320667849074153250292142078322078523454783769371330644527748332569775799736597138689209414361655909189797704348576571341618578513091914276733823536811983159184670241101389106770742111972544046611613419071373128839461947995247144387545601792401549928493166230602197002776588410010719461928803626766131916564469880306225642490070614532302365327386183711788405988368587450126860104521812733624228754006314931070421678855833139036212041460909518558972187919380887764206081

/-- Antilog table lookup: entry `i` of the packed table (out-of-range
reads give 0, which never occurs on the indices the code uses). -/
def gfExpAt (i : Nat) : Nat := (gfExpTable >>> (8 * i)) % 256

/-- The packed antilog table is exactly the list of successive powers of
α generated from the primitive polynomial. -/
theorem gfExpTable_generated :
    (List.range 256).map gfExpAt = gfExpFrom 1 256 := by decide

/-- Modelled from the spec: the precomputed log table, packed like
`gfExpTable`; it is the inverse of the antilog table on the 255 distinct
powers (`gfExpAt_gfLogAt` and `gfLogAt_gfExpAt` below).  Entry 0 is the
junk value 255 (log of zero is undefined and never requested by correct
code). -/
def gfLogTable : Nat := 22135253156888987530748098150270024343632497605293634117281264061560962248099620766229961468867162294233796152347975563017024165690400661622462404646302566225833645086064538892198543335321514950294300187779610338557442029018619797274438901674641748676613670242915365385819254959901651105240253464034662486586186382979728982817772067067513442677601938078891989292316012868233806586592927239821351197800766822366321181463280924672822998103315976779850880337712374790938628529953751181886374687897611504386983350015558142994211516619836411558782076806704747441947939324473761869443721989389604670425385080942269787341055

/-- Log table lookup: entry `a` of the packed table (the entry for 0 and
out-of-range reads are the junk value 255). -/
def gfLogAt (a : Nat) : Nat :=
  if a < 256 then (gfLogTable >>> (8 * a)) % 256 else 255

/-- The zero element of GF(2^8). -/
def gfZero : Nat := 0

/-- The one element of GF(2^8). -/
def gfOne : Nat := 1

/-- Modelled from the spec: GF(2^8) addition is bytewise XOR. -/
def gfAdd (a b : Nat) : Nat := Nat.xor a b

/-- Modelled from the spec: table-based GF(2^8) multiplication,
`α^((log a + log b) mod 255)` for non-zero operands. -/
def gfMultiply (a b : Nat) : Nat :=
  if a = 0 ∨ b = 0 then 0 else gfExpAt ((gfLogAt a + gfLogAt b) % 255)

/-- Modelled from the spec: table-based GF(2^8) inverse, `α^(255 - log a)`.
Undefined (junk) for `a = 0`, which correct code never requests. -/
def gfInverse (a : Nat) : Nat := gfExpAt (255 - gfLogAt a)

/-- Modelled from the spec: GF(2^8) division as multiplication by the
inverse.  Division by zero is undefined (the Go code would panic). -/
def gfDivide (a b : Nat) : Nat :=
  if a = 0 then 0 else gfMultiply a (gfInverse b)

/-! ### Table facts (all finite checks) -/

theorem gfExpAt_ne_zero : ∀ i, i < 256 → gfExpAt i ≠ 0 := by decide

theorem gfExpAt_le : ∀ i, i < 256 → gfExpAt i ≤ 255 := by decide

theorem gfLogAt_lt : ∀ a, a < 256 → a ≠ 0 → gfLogAt a < 255 := by decide

theorem gfExpAt_gfLogAt : ∀ a, a < 256 → a ≠ 0 → gfExpAt (gfLogAt a) = a := by
  decide

theorem gfLogAt_gfExpAt : ∀ i, i ≤ 255 → gfLogAt (gfExpAt i) = i % 255 := by
  decide

/-- Multiplication of non-zero elements in range is the antilog of the
sum of logs. -/
theorem gfMultiply_eq (a b : Nat) (ha : a ≠ 0) (hb : b ≠ 0) :
    gfMultiply a b = gfExpAt ((gfLogAt a + gfLogAt b) % 255) := by
  unfold gfMultiply
  simp [ha, hb]

theorem gfMultiply_ne_zero (a b : Nat) (ha : a ≠ 0) (hb : b ≠ 0) :
    gfMultiply a b ≠ 0 := by
  rw [gfMultiply_eq a b ha hb]
  exact gfExpAt_ne_zero _ (Nat.lt_of_lt_of_le (Nat.mod_lt _ (by decide)) (by decide))

theorem gfMultiply_le (a b : Nat) : gfMultiply a b ≤ 255 := by
  unfold gfMultiply
  by_cases h : a = 0 ∨ b = 0
  · simp [h]
  · simp only [h, if_false]
    exact gfExpAt_le _ (Nat.lt_of_lt_of_le (Nat.mod_lt _ (by decide)) (by decide))

theorem gfAdd_le (a b : Nat) (ha : a ≤ 255) (hb : b ≤ 255) : gfAdd a b ≤ 255 := by
  have : Nat.xor a b < 256 := Nat.xor_lt_two_pow (n := 8) (by omega) (by omega)
  unfold gfAdd; omega

/-- C9: for all GF(2^8) elements a and b with a, b in [1, 255],
`gfDivide (gfMultiply a b) b = a`. -/
theorem gfDivide_gfMultiply (a b : Nat)
    (ha1 : 1 ≤ a) (ha2 : a ≤ 255) (hb1 : 1 ≤ b) (hb2 : b ≤ 255) :
    gfDivide (gfMultiply a b) b = a := by
  have ha0 : a ≠ 0 := by omega
  have hb0 : b ≠ 0 := by omega
  have hla : gfLogAt a < 255 := gfLogAt_lt a (by omega) ha0
  have hlb : gfLogAt b < 255 := gfLogAt_lt b (by omega) hb0
  have hm : gfMultiply a b = gfExpAt ((gfLogAt a + gfLogAt b) % 255) :=
    gfMultiply_eq a b ha0 hb0
  have hmlt : (gfLogAt a + gfLogAt b) % 255 < 255 := Nat.mod_lt _ (by decide)
  have hm0 : gfMultiply a b ≠ 0 := gfMultiply_ne_zero a b ha0 hb0
  have hi0 : gfInverse b ≠ 0 := by
    unfold gfInverse
    exact gfExpAt_ne_zero _ (by omega)
  rw [gfDivide, if_neg hm0, gfMultiply_eq _ _ hm0 hi0, hm]
  rw [gfLogAt_gfExpAt _ (by omega)]
  unfold gfInverse
  rw [gfLogAt_gfExpAt _ (by omega)]
  have h3 : ((gfLogAt a + gfLogAt b) % 255 % 255 + (255 - gfLogAt b) % 255) % 255
      = gfLogAt a := by omega
  rw [h3]
  exact gfExpAt_gfLogAt a (by omega) ha0

/-- The model reproduces the multiplication vectors of
`TestGFMultiplicationAndDivision` (src/unnamed/part_018). -/
theorem gfMultiply_test_vectors :
    gfMultiply 0 29 = 0 ∧ gfMultiply 1 1 = 1 ∧ gfMultiply 1 32 = 32 ∧
    gfMultiply 2 4 = 8 ∧ gfMultiply 16 128 = 232 ∧ gfMultiply 17 17 = 28 ∧
    gfMultiply 27 9 = 195 := by decide

/-- Cancelling a factor from the right: `b * (a / b) = a` for non-zero
`b` (used for the leading-term cancellation in polynomial division). -/
theorem gfMultiply_gfDivide (a b : Nat)
    (ha2 : a ≤ 255) (hb1 : 1 ≤ b) (hb2 : b ≤ 255) :
    gfMultiply b (gfDivide a b) = a := by
  have hb0 : b ≠ 0 := by omega
  have hlb : gfLogAt b < 255 := gfLogAt_lt b (by omega) hb0
  by_cases ha0 : a = 0
  · subst ha0
    rw [gfDivide, if_pos rfl]
    unfold gfMultiply
    simp
  · have hla : gfLogAt a < 255 := gfLogAt_lt a (by omega) ha0
    have hi0 : gfInverse b ≠ 0 := by
      unfold gfInverse
      exact gfExpAt_ne_zero _ (by omega)
    have hd : gfDivide a b = gfExpAt ((gfLogAt a + gfLogAt (gfInverse b)) % 255) := by
      rw [gfDivide, if_neg ha0]
      exact gfMultiply_eq a _ ha0 hi0
    have hd0 : gfDivide a b ≠ 0 := by
      rw [hd]
      exact gfExpAt_ne_zero _ (Nat.lt_of_lt_of_le (Nat.mod_lt _ (by decide)) (by decide))
    rw [gfMultiply_eq b _ hb0 hd0, hd]
    rw [gfLogAt_gfExpAt _ (by omega)]
    unfold gfInverse
    rw [gfLogAt_gfExpAt _ (by omega)]
    have h3 : (gfLogAt b + (gfLogAt a + (255 - gfLogAt b) % 255) % 255 % 255) % 255
        = gfLogAt a := by omega
    rw [h3]
    exact gfExpAt_gfLogAt a (by omega) ha0

theorem gfDivide_le (a b : Nat) : gfDivide a b ≤ 255 := by
  unfold gfDivide
  by_cases h : a = 0
  · simp [h]
  · simp only [h, if_false]
    exact gfMultiply_le _ _

/-! ## GF(2^8) polynomials

Source: `qrcode/internal/reedsolomon` gf_poly.go (src/unnamed/part_019). -/

/-- A polynomial over GF(2^8); `term[i]` is the coefficient of x^i
(source: `gfPoly`, part_019 lines 33-37). -/
structure gfPoly where
  term : List Nat
deriving DecidableEq

/-- Number of terms of the polynomial (source: `gfPoly.numTerms`). -/
def gfPoly.numTerms (e : gfPoly) : Nat := e.term.length

/-- Coefficient of x^p (0 beyond the stored terms). -/
def gfPoly.coeff (e : gfPoly) (p : Nat) : Nat := e.term.getD p 0

/-- Returns term*(x^degree) (source: `newGFPolyMonomial`, part_019
lines 63-70). -/
def newGFPolyMonomial (term degree : Nat) : gfPoly :=
  if term = gfZero then ⟨[]⟩ else ⟨List.replicate degree 0 ++ [term]⟩

/-- Drops the zero coefficients at the top end of a term list; this is
what `gfPoly.normalised` (part_019 lines 144-162) computes: the prefix up
to the highest non-zero term. -/
def stripTrailingZeros : List Nat → List Nat
  | [] => []
  | x :: xs =>
    match stripTrailingZeros xs with
    | [] => if x = 0 then [] else [x]
    | ys => x :: ys

/-- source: `gfPoly.normalised` (part_019 lines 144-162). -/
def gfPoly.normalised (e : gfPoly) : gfPoly := ⟨stripTrailingZeros e.term⟩

/-- Termwise field addition, length = max of the lengths; the loop of
`gfPolyAdd` (part_019 lines 125-141). -/
def addTerms : List Nat → List Nat → List Nat
  | [], b => b
  | a, [] => a
  | x :: xs, y :: ys => gfAdd x y :: addTerms xs ys

/-- Returns a + b, normalised (source: `gfPolyAdd`, part_019 lines 124-142). -/
def gfPolyAdd (a b : gfPoly) : gfPoly :=
  gfPoly.normalised ⟨addTerms a.term b.term⟩

/-- The body of the double loop of `gfPolyMultiply` (part_019 lines
91-100): add `gfMultiply a_i b_j * x^(i+j)` to the accumulator when both
coefficients are non-zero. -/
def gfPolyMulStep (a b : gfPoly) (i j : Nat) (acc : gfPoly) : gfPoly :=
  if a.coeff i ≠ 0 ∧ b.coeff j ≠ 0 then
    gfPolyAdd acc (newGFPolyMonomial (gfMultiply (a.coeff i) (b.coeff j)) (i + j))
  else acc

/-- Returns a * b (source: `gfPolyMultiply`, part_019 lines 85-102). -/
def gfPolyMultiply (a b : gfPoly) : gfPoly :=
  gfPoly.normalised <|
    (List.range a.numTerms).foldl (fun acc i =>
      (List.range b.numTerms).foldl (fun acc2 j => gfPolyMulStep a b i j acc2) acc)
      ⟨List.replicate (a.numTerms + b.numTerms) 0⟩

/-- One long-division step of `gfPolyRemainder` (part_019 lines 112-119):
subtract denominator times the matching monomial from the working
remainder. -/
def gfPolyRemainderStep (remainder denominator : gfPoly) : gfPoly :=
  gfPolyAdd remainder <|
    gfPolyMultiply denominator <|
      newGFPolyMonomial
        (gfDivide (remainder.coeff (remainder.numTerms - 1))
          (denominator.coeff (denominator.numTerms - 1)))
        (remainder.numTerms - denominator.numTerms)

/-- The division loop of `gfPolyRemainder` (part_019 lines 110-120),
embedded with explicit fuel: `none` means the fuel ran out with the loop
guard still true (which, per `gfPolyRemainderGo_isSome`, cannot happen
with fuel `remainder.numTerms + 1` on well-formed inputs). -/
def gfPolyRemainderGo : Nat → gfPoly → gfPoly → Option gfPoly
  | 0, _, _ => none
  | fuel + 1, remainder, denominator =>
    if denominator.numTerms ≤ remainder.numTerms then
      gfPolyRemainderGo fuel (gfPolyRemainderStep remainder denominator) denominator
    else some remainder

/-- Returns the remainder of numerator / denominator (source:
`gfPolyRemainder`, part_019 lines 104-122).  The source panics on an
all-zero denominator; that branch is embedded as the junk value `⟨[]⟩`. -/
def gfPolyRemainder (numerator denominator : gfPoly) : gfPoly :=
  if denominator.term.all (· == 0) then ⟨[]⟩
  else
    gfPoly.normalised <|
      (gfPolyRemainderGo (numerator.numTerms + 1) numerator denominator).getD ⟨[]⟩

/-- All stored coefficients are GF(2^8) elements, i.e. at most 255. -/
def gfPoly.wf (e : gfPoly) : Prop := ∀ x ∈ e.term, x ≤ 255

/-- The polynomial carries no zero coefficients at its top end. -/
def gfPoly.isNormalised (e : gfPoly) : Prop := stripTrailingZeros e.term = e.term

instance (e : gfPoly) : Decidable e.wf := by
  unfold gfPoly.wf
  infer_instance

instance (e : gfPoly) : Decidable e.isNormalised := by
  unfold gfPoly.isNormalised
  infer_instance

/-! ### Coefficient-level facts about the polynomial operations -/

theorem stripTrailingZeros_getD (l : List Nat) (p : Nat) :
    (stripTrailingZeros l).getD p 0 = l.getD p 0 := by
  induction l generalizing p with
  | nil => rfl
  | cons x xs ih =>
    unfold stripTrailingZeros
    cases h : stripTrailingZeros xs with
    | nil =>
      have hxs : ∀ q, xs.getD q 0 = 0 := by
        intro q
        have h2 := ih q
        rw [h, List.getD_nil] at h2
        exact h2.symm
      by_cases hx : x = 0
      · subst hx
        show ([] : List Nat).getD p 0 = ((0 : Nat) :: xs).getD p 0
        cases p with
        | zero => simp
        | succ q => rw [List.getD_nil, List.getD_cons_succ, hxs q]
      · simp only [if_neg hx]
        cases p with
        | zero => simp
        | succ q => rw [List.getD_cons_succ, List.getD_cons_succ, List.getD_nil, hxs q]
    | cons y ys =>
      cases p with
      | zero => simp only [List.getD_cons_zero]
      | succ q =>
        simp only [List.getD_cons_succ]
        rw [← h, ih q]

theorem stripTrailingZeros_length_le (l : List Nat) :
    (stripTrailingZeros l).length ≤ l.length := by
  induction l with
  | nil => simp [stripTrailingZeros]
  | cons x xs ih =>
    unfold stripTrailingZeros
    cases h : stripTrailingZeros xs with
    | nil =>
      by_cases hx : x = 0 <;> simp [hx]
    | cons y ys =>
      rw [h] at ih
      simpa using ih

theorem stripTrailingZeros_top_ne (l : List Nat) (k : Nat)
    (h : (stripTrailingZeros l).length = k + 1) :
    (stripTrailingZeros l).getD k 0 ≠ 0 := by
  induction l generalizing k with
  | nil => simp [stripTrailingZeros] at h
  | cons x xs ih =>
    unfold stripTrailingZeros at h ⊢
    cases h2 : stripTrailingZeros xs with
    | nil =>
      rw [h2] at h
      by_cases hx : x = 0
      · simp [hx] at h
      · simp only [if_neg hx] at h ⊢
        have : k = 0 := by simpa using h
        subst this
        simpa using hx
    | cons y ys =>
      rw [h2] at h
      simp only [List.length_cons] at h
      cases k with
      | zero => omega
      | succ q =>
        have hq : (stripTrailingZeros xs).length = q + 1 := by
          rw [h2]; simp only [List.length_cons]; omega
        have h3 := ih q hq
        rw [h2] at h3
        simpa using h3

theorem gfAdd_zero (a : Nat) : gfAdd a 0 = a := Nat.xor_zero a

theorem zero_gfAdd (b : Nat) : gfAdd 0 b = b := Nat.zero_xor b

theorem addTerms_getD (a b : List Nat) (p : Nat) :
    (addTerms a b).getD p 0 = gfAdd (a.getD p 0) (b.getD p 0) := by
  induction a generalizing b p with
  | nil =>
    cases b with
    | nil => simp only [addTerms, List.getD_nil, gfAdd_zero]
    | cons y ys => simp only [addTerms, List.getD_nil, zero_gfAdd]
  | cons x xs ih =>
    cases b with
    | nil => simp only [addTerms, List.getD_nil, gfAdd_zero]
    | cons y ys =>
      cases p with
      | zero => simp only [addTerms, List.getD_cons_zero]
      | succ q =>
        simp only [addTerms, List.getD_cons_succ]
        exact ih ys q

theorem addTerms_length (a b : List Nat) :
    (addTerms a b).length = max a.length b.length := by
  induction a generalizing b with
  | nil => cases b <;> simp [addTerms]
  | cons x xs ih =>
    cases b with
    | nil => simp [addTerms]
    | cons y ys =>
      simp only [addTerms, List.length_cons, ih ys, Nat.succ_max_succ]

theorem gfPolyAdd_coeff (a b : gfPoly) (p : Nat) :
    (gfPolyAdd a b).coeff p = gfAdd (a.coeff p) (b.coeff p) := by
  unfold gfPolyAdd gfPoly.coeff gfPoly.normalised
  rw [stripTrailingZeros_getD, addTerms_getD]

theorem coeff_replicate_zero (n p : Nat) :
    (⟨List.replicate n 0⟩ : gfPoly).coeff p = 0 := by
  unfold gfPoly.coeff
  induction n generalizing p with
  | zero => simp
  | succ m ih =>
    cases p with
    | zero => simp only [List.replicate_succ, List.getD_cons_zero]
    | succ q =>
      simp only [List.replicate_succ, List.getD_cons_succ]
      exact ih q

theorem newGFPolyMonomial_coeff (c d p : Nat) :
    (newGFPolyMonomial c d).coeff p = if p = d then c else 0 := by
  unfold newGFPolyMonomial
  by_cases hc : c = gfZero
  · have hc0 : c = 0 := hc
    subst hc0
    rw [if_pos hc]
    show ([] : List Nat).getD p 0 = if p = d then 0 else 0
    simp only [List.getD_nil]
    split <;> rfl
  · simp only [if_neg hc]
    show (List.replicate d 0 ++ [c]).getD p 0 = if p = d then c else 0
    induction d generalizing p with
    | zero =>
      cases p with
      | zero => simp
      | succ q => simp
    | succ m ih =>
      cases p with
      | zero =>
        simp only [List.replicate_succ, List.cons_append, List.getD_cons_zero]
        rw [if_neg (by omega)]
      | succ q =>
        simp only [List.replicate_succ, List.cons_append, List.getD_cons_succ]
        rw [ih q]
        by_cases h : q = m
        · subst h; simp
        · rw [if_neg h, if_neg (by omega)]

theorem coeff_ne_zero_lt (e : gfPoly) (p : Nat) (h : e.coeff p ≠ 0) :
    p < e.numTerms := by
  by_contra hc
  apply h
  unfold gfPoly.coeff
  exact List.getD_eq_default _ _ (by unfold gfPoly.numTerms at hc; omega)

/-- The spine of the normalised result: if it has `k + 1` terms then its
top coefficient is non-zero. -/
theorem normalised_top_ne (e : gfPoly) (k : Nat)
    (h : e.normalised.numTerms = k + 1) : e.normalised.coeff k ≠ 0 :=
  stripTrailingZeros_top_ne e.term k h

theorem normalised_coeff (e : gfPoly) (p : Nat) :
    e.normalised.coeff p = e.coeff p :=
  stripTrailingZeros_getD e.term p

theorem normalised_numTerms_le (e : gfPoly) :
    e.normalised.numTerms ≤ e.numTerms :=
  stripTrailingZeros_length_le e.term

theorem gfPolyAdd_numTerms_le (a b : gfPoly) :
    (gfPolyAdd a b).numTerms ≤ max a.numTerms b.numTerms := by
  unfold gfPolyAdd
  calc (gfPoly.normalised ⟨addTerms a.term b.term⟩).numTerms
      ≤ (addTerms a.term b.term).length := stripTrailingZeros_length_le _
    _ = max a.numTerms b.numTerms := addTerms_length _ _

/-! ### Convolution characterisation of `gfPolyMultiply` -/

/-- The contribution of row `i` of the double loop of `gfPolyMultiply` to
the coefficient of x^p of the (un-normalised) accumulator. -/
def rowContrib (a b : gfPoly) (i p : Nat) : Nat :=
  if i ≤ p ∧ p - i < b.numTerms ∧ a.coeff i ≠ 0 ∧ b.coeff (p - i) ≠ 0 then
    gfMultiply (a.coeff i) (b.coeff (p - i))
  else 0

/-- The convolution sum of the coefficient of x^p over the first `n` rows. -/
def mulCoeffAux (a b : gfPoly) (p n : Nat) : Nat :=
  (List.range n).foldl (fun acc i => gfAdd acc (rowContrib a b i p)) 0

theorem gfPolyMulStep_coeff (a b : gfPoly) (i j : Nat) (acc : gfPoly) (p : Nat) :
    (gfPolyMulStep a b i j acc).coeff p =
      gfAdd (acc.coeff p)
        (if i + j = p ∧ a.coeff i ≠ 0 ∧ b.coeff j ≠ 0
         then gfMultiply (a.coeff i) (b.coeff j) else 0) := by
  unfold gfPolyMulStep
  by_cases hg : a.coeff i ≠ 0 ∧ b.coeff j ≠ 0
  · rw [if_pos hg, gfPolyAdd_coeff, newGFPolyMonomial_coeff]
    by_cases hp : p = i + j
    · rw [if_pos hp, if_pos ⟨hp.symm, hg.1, hg.2⟩]
    · rw [if_neg hp, if_neg (by rintro ⟨h1, -, -⟩; exact hp h1.symm)]
  · rw [if_neg hg, if_neg (by rintro ⟨-, h2, h3⟩; exact hg ⟨h2, h3⟩), gfAdd_zero]

theorem mulInner_coeff (a b : gfPoly) (i p : Nat) :
    ∀ (n : Nat) (acc : gfPoly),
      ((List.range n).foldl (fun acc2 j => gfPolyMulStep a b i j acc2) acc).coeff p =
        gfAdd (acc.coeff p)
          (if i ≤ p ∧ p - i < n ∧ a.coeff i ≠ 0 ∧ b.coeff (p - i) ≠ 0
           then gfMultiply (a.coeff i) (b.coeff (p - i)) else 0) := by
  intro n
  induction n with
  | zero =>
    intro acc
    rw [List.range_zero, List.foldl_nil, if_neg (by rintro ⟨-, h2, -⟩; omega),
      gfAdd_zero]
  | succ m ih =>
    intro acc
    rw [List.range_succ, List.foldl_append, List.foldl_cons, List.foldl_nil,
      gfPolyMulStep_coeff, ih acc]
    by_cases hp : i + m = p
    · have hpm : p - i = m := by omega
      rw [hpm, if_neg (by rintro ⟨-, h2, -⟩; omega)]
      by_cases hg : a.coeff i ≠ 0 ∧ b.coeff m ≠ 0
      · rw [if_pos ⟨hp, hg.1, hg.2⟩, if_pos ⟨by omega, by omega, hg.1, hg.2⟩,
          gfAdd_zero]
      · rw [if_neg (by rintro ⟨-, h2, h3⟩; exact hg ⟨h2, h3⟩),
          if_neg (by rintro ⟨-, -, h3, h4⟩; exact hg ⟨h3, h4⟩), gfAdd_zero,
          gfAdd_zero]
    · have hc1 : (if i + m = p ∧ a.coeff i ≠ 0 ∧ b.coeff m ≠ 0
          then gfMultiply (a.coeff i) (b.coeff m) else 0) = 0 :=
        if_neg (by rintro ⟨h1, -, -⟩; exact hp h1)
      have hiff : (i ≤ p ∧ p - i < m ∧ a.coeff i ≠ 0 ∧ b.coeff (p - i) ≠ 0) ↔
          (i ≤ p ∧ p - i < m + 1 ∧ a.coeff i ≠ 0 ∧ b.coeff (p - i) ≠ 0) := by
        constructor
        · rintro ⟨h1, h2, h3, h4⟩; exact ⟨h1, by omega, h3, h4⟩
        · rintro ⟨h1, h2, h3, h4⟩; exact ⟨h1, by omega, h3, h4⟩
      rw [hc1, gfAdd_zero, if_congr hiff rfl rfl]

theorem mulOuter_coeff (a b : gfPoly) (p : Nat) :
    ∀ (n : Nat) (acc : gfPoly),
      ((List.range n).foldl (fun acc i => (List.range b.numTerms).foldl
          (fun acc2 j => gfPolyMulStep a b i j acc2) acc) acc).coeff p =
        (List.range n).foldl (fun x i => gfAdd x (rowContrib a b i p))
          (acc.coeff p) := by
  intro n
  induction n with
  | zero => intro acc; rw [List.range_zero, List.foldl_nil, List.foldl_nil]
  | succ m ih =>
    intro acc
    rw [List.range_succ, List.foldl_append, List.foldl_cons, List.foldl_nil,
      List.foldl_append, List.foldl_cons, List.foldl_nil,
      mulInner_coeff a b m p b.numTerms, ih acc]
    unfold rowContrib
    rfl

theorem gfPolyMultiply_coeff (a b : gfPoly) (p : Nat) :
    (gfPolyMultiply a b).coeff p = mulCoeffAux a b p a.numTerms := by
  unfold gfPolyMultiply
  rw [normalised_coeff, mulOuter_coeff a b p a.numTerms, mulCoeffAux]
  rw [coeff_replicate_zero]

theorem rowContrib_le (a b : gfPoly) (i p : Nat) : rowContrib a b i p ≤ 255 := by
  unfold rowContrib
  split
  · exact gfMultiply_le _ _
  · omega

theorem mulCoeffAux_le (a b : gfPoly) (p n : Nat) : mulCoeffAux a b p n ≤ 255 := by
  unfold mulCoeffAux
  induction n with
  | zero => rw [List.range_zero, List.foldl_nil]; omega
  | succ m ih =>
    rw [List.range_succ, List.foldl_append, List.foldl_cons, List.foldl_nil]
    exact gfAdd_le _ _ ih (rowContrib_le a b m p)

theorem mulCoeffAux_succ (a b : gfPoly) (p m : Nat) :
    mulCoeffAux a b p (m + 1) = gfAdd (mulCoeffAux a b p m) (rowContrib a b m p) := by
  unfold mulCoeffAux
  rw [List.range_succ, List.foldl_append, List.foldl_cons, List.foldl_nil]

theorem mulCoeffAux_eq_zero (a b : gfPoly) (p n : Nat)
    (h : ∀ i, i < n → rowContrib a b i p = 0) : mulCoeffAux a b p n = 0 := by
  induction n with
  | zero => rfl
  | succ m ih =>
    rw [mulCoeffAux_succ, ih (fun i hi => h i (by omega)), h m (by omega)]
    rfl

theorem mulCoeffAux_eq_single (a b : gfPoly) (p n i0 : Nat) (h0 : i0 < n)
    (hz : ∀ i, i < n → i ≠ i0 → rowContrib a b i p = 0) :
    mulCoeffAux a b p n = rowContrib a b i0 p := by
  induction n with
  | zero => omega
  | succ m ih =>
    rw [mulCoeffAux_succ]
    by_cases hm : i0 = m
    · subst hm
      rw [mulCoeffAux_eq_zero a b p i0 (fun i hi => hz i (by omega) (by omega)),
        zero_gfAdd]
    · rw [ih (by omega) (fun i hi hne => hz i (by omega) hne),
        hz m (by omega) (fun he => hm he.symm), gfAdd_zero]

theorem gfPolyMultiply_coeff_high (a b : gfPoly) (p : Nat)
    (h : a.numTerms + b.numTerms ≤ p + 1) : (gfPolyMultiply a b).coeff p = 0 := by
  rw [gfPolyMultiply_coeff]
  apply mulCoeffAux_eq_zero
  intro i hi
  unfold rowContrib
  rw [if_neg (by rintro ⟨h1, h2, -⟩; omega)]

theorem gfPolyMultiply_numTerms_le (a b : gfPoly) :
    (gfPolyMultiply a b).numTerms ≤ a.numTerms + b.numTerms - 1 := by
  cases hn : (gfPolyMultiply a b).numTerms with
  | zero => omega
  | succ k =>
    have htop : (gfPolyMultiply a b).coeff k ≠ 0 := by
      unfold gfPolyMultiply at hn ⊢
      exact normalised_top_ne _ k hn
    by_contra hc
    exact htop (gfPolyMultiply_coeff_high a b k (by omega))

/-! ### Well-formedness (coefficients are GF(2^8) elements) -/

theorem wf_coeff (e : gfPoly) (h : e.wf) (p : Nat) : e.coeff p ≤ 255 := by
  by_cases hp : p < e.term.length
  · unfold gfPoly.coeff
    rw [List.getD_eq_getElem _ _ hp]
    exact h _ (List.getElem_mem hp)
  · unfold gfPoly.coeff
    rw [List.getD_eq_default _ _ (by omega)]
    omega

theorem wf_of_coeff (e : gfPoly) (h : ∀ p, e.coeff p ≤ 255) : e.wf := by
  intro x hx
  obtain ⟨i, hi, hxe⟩ := List.mem_iff_getElem.mp hx
  have h2 := h i
  unfold gfPoly.coeff at h2
  rw [List.getD_eq_getElem _ _ hi, hxe] at h2
  exact h2

theorem gfPolyMultiply_wf (a b : gfPoly) : (gfPolyMultiply a b).wf := by
  apply wf_of_coeff
  intro p
  rw [gfPolyMultiply_coeff]
  exact mulCoeffAux_le a b p a.numTerms

theorem gfPolyAdd_wf (a b : gfPoly) (ha : a.wf) (hb : b.wf) :
    (gfPolyAdd a b).wf := by
  apply wf_of_coeff
  intro p
  rw [gfPolyAdd_coeff]
  exact gfAdd_le _ _ (wf_coeff a ha p) (wf_coeff b hb p)

/-- A normalised, non-empty polynomial has a non-zero top coefficient. -/
theorem normalised_nonzero_top (e : gfPoly) (hn : e.isNormalised)
    (hne : e.term ≠ []) : e.coeff (e.numTerms - 1) ≠ 0 := by
  have hlen0 : e.term.length ≠ 0 := fun h0 => hne (List.eq_nil_of_length_eq_zero h0)
  have h2 : (stripTrailingZeros e.term).length = (e.numTerms - 1) + 1 := by
    unfold gfPoly.isNormalised at hn
    rw [hn]
    unfold gfPoly.numTerms
    omega
  have h3 := stripTrailingZeros_top_ne e.term (e.numTerms - 1) h2
  unfold gfPoly.isNormalised at hn
  rw [hn] at h3
  exact h3

theorem newGFPolyMonomial_numTerms (c d : Nat) (hc : c ≠ 0) :
    (newGFPolyMonomial c d).numTerms = d + 1 := by
  unfold newGFPolyMonomial gfPoly.numTerms
  rw [if_neg (show ¬(c = gfZero) from hc)]
  simp

/-- If every coefficient of a product vanishes, the product is the empty
polynomial. -/
theorem gfPolyMultiply_numTerms_eq_zero (a b : gfPoly)
    (h : ∀ p, (gfPolyMultiply a b).coeff p = 0) :
    (gfPolyMultiply a b).numTerms = 0 := by
  cases hk : (gfPolyMultiply a b).numTerms with
  | zero => rfl
  | succ k =>
    exfalso
    have htop : (gfPolyMultiply a b).coeff k ≠ 0 := by
      unfold gfPolyMultiply at hk ⊢
      exact normalised_top_ne _ k hk
    exact htop (h k)

/-- When the top coefficients of the two summands cancel, the normalised
sum is strictly shorter than the bound `k`. -/
theorem gfPolyAdd_numTerms_lt (a b : gfPoly) (k : Nat)
    (hk : 1 ≤ k) (hka : a.numTerms ≤ k) (hkb : b.numTerms ≤ k)
    (hcancel : gfAdd (a.coeff (k - 1)) (b.coeff (k - 1)) = 0) :
    (gfPolyAdd a b).numTerms < k := by
  have hle : (gfPolyAdd a b).numTerms ≤ k :=
    le_trans (gfPolyAdd_numTerms_le a b) (by omega)
  by_contra hcon
  have htop := normalised_top_ne ⟨addTerms a.term b.term⟩ (k - 1) (by
    show (gfPolyAdd a b).numTerms = k - 1 + 1
    omega)
  apply htop
  show (gfPolyAdd a b).coeff (k - 1) = 0
  rw [gfPolyAdd_coeff]
  exact hcancel

/-! ### The long-division step strictly reduces the number of terms -/

theorem gfPolyRemainderStep_wf (rem den : gfPoly) (hr : rem.wf) :
    (gfPolyRemainderStep rem den).wf := by
  unfold gfPolyRemainderStep
  exact gfPolyAdd_wf _ _ hr (gfPolyMultiply_wf _ _)

theorem gfPolyRemainderStep_numTerms_lt (rem den : gfPoly)
    (hdn : den.isNormalised) (hdne : den.term ≠ [])
    (hrw : rem.wf) (hdw : den.wf)
    (hg : den.numTerms ≤ rem.numTerms) :
    (gfPolyRemainderStep rem den).numTerms < rem.numTerms := by
  have hnD1 : 1 ≤ den.numTerms := by
    have : den.term.length ≠ 0 := fun h0 => hdne (List.eq_nil_of_length_eq_zero h0)
    unfold gfPoly.numTerms
    omega
  have hnR1 : 1 ≤ rem.numTerms := le_trans hnD1 hg
  have htopD : den.coeff (den.numTerms - 1) ≠ 0 := normalised_nonzero_top den hdn hdne
  have htopD255 : den.coeff (den.numTerms - 1) ≤ 255 := wf_coeff den hdw _
  have htopR255 : rem.coeff (rem.numTerms - 1) ≤ 255 := wf_coeff rem hrw _
  unfold gfPolyRemainderStep
  by_cases htopR : rem.coeff (rem.numTerms - 1) = 0
  -- top coefficient of the remainder is already zero: the subtracted
  -- divisor is the zero polynomial and normalisation drops the top term
  · rw [htopR]
    have hc0 : gfDivide 0 (den.coeff (den.numTerms - 1)) = 0 := by
      unfold gfDivide
      rw [if_pos rfl]
    rw [hc0]
    have hmono : newGFPolyMonomial 0 (rem.numTerms - den.numTerms) = ⟨[]⟩ := by
      unfold newGFPolyMonomial
      rw [if_pos (show (0 : Nat) = gfZero from rfl)]
    rw [hmono]
    have hdiv0 : ∀ p, (gfPolyMultiply den ⟨[]⟩).coeff p = 0 := by
      intro p
      rw [gfPolyMultiply_coeff]
      apply mulCoeffAux_eq_zero
      intro i hi
      unfold rowContrib
      rw [if_neg]
      rintro ⟨-, h2, -⟩
      simp [gfPoly.numTerms] at h2
    have hd0 : (gfPolyMultiply den ⟨[]⟩).numTerms = 0 :=
      gfPolyMultiply_numTerms_eq_zero den ⟨[]⟩ hdiv0
    apply gfPolyAdd_numTerms_lt _ _ _ hnR1 (le_refl _) (by omega)
    rw [htopR, hdiv0, zero_gfAdd]
  -- top coefficient non-zero: the divisor's top term cancels it exactly
  · have hc0 : gfDivide (rem.coeff (rem.numTerms - 1))
        (den.coeff (den.numTerms - 1)) ≠ 0 := by
      unfold gfDivide
      rw [if_neg htopR]
      apply gfMultiply_ne_zero _ _ htopR
      unfold gfInverse
      exact gfExpAt_ne_zero _ (by omega)
    set c := gfDivide (rem.coeff (rem.numTerms - 1)) (den.coeff (den.numTerms - 1))
      with hc
    set d := rem.numTerms - den.numTerms with hd
    have hmonoT : (newGFPolyMonomial c d).numTerms = d + 1 :=
      newGFPolyMonomial_numTerms c d hc0
    have hdivLe : (gfPolyMultiply den (newGFPolyMonomial c d)).numTerms
        ≤ rem.numTerms := by
      refine le_trans (gfPolyMultiply_numTerms_le _ _) ?_
      rw [hmonoT]
      omega
    have hdivTop : (gfPolyMultiply den (newGFPolyMonomial c d)).coeff
        (rem.numTerms - 1) = gfMultiply (den.coeff (den.numTerms - 1)) c := by
      rw [gfPolyMultiply_coeff]
      rw [mulCoeffAux_eq_single den (newGFPolyMonomial c d) (rem.numTerms - 1)
        den.numTerms (den.numTerms - 1) (by omega) ?_]
      · unfold rowContrib
        rw [if_pos]
        · congr 1
          rw [newGFPolyMonomial_coeff, if_pos (by omega)]
        · refine ⟨by omega, ?_, htopD, ?_⟩
          · rw [hmonoT]; omega
          · rw [newGFPolyMonomial_coeff, if_pos (by omega)]
            exact hc0
      · intro i hi hne
        unfold rowContrib
        rw [if_neg]
        rintro ⟨h1, h2, h3, h4⟩
        rw [newGFPolyMonomial_coeff] at h4
        by_cases hpd : rem.numTerms - 1 - i = d
        · exact hne (by omega)
        · rw [if_neg hpd] at h4
          exact h4 rfl
    have hcancel : gfMultiply (den.coeff (den.numTerms - 1)) c =
        rem.coeff (rem.numTerms - 1) := by
      rw [hc]
      exact gfMultiply_gfDivide _ _ htopR255 (by omega) htopD255
    apply gfPolyAdd_numTerms_lt _ _ _ hnR1 (le_refl _) hdivLe
    rw [hdivTop, hcancel]
    exact Nat.xor_self _

/-! ### Termination and degree bound of `gfPolyRemainder` -/

theorem gfPolyRemainderGo_isSome (den : gfPoly)
    (hdn : den.isNormalised) (hdne : den.term ≠ []) (hdw : den.wf) :
    ∀ (fuel : Nat) (rem : gfPoly), rem.wf → rem.numTerms < fuel →
      (gfPolyRemainderGo fuel rem den).isSome = true := by
  intro fuel
  induction fuel with
  | zero => intro rem _ h; omega
  | succ m ih =>
    intro rem hrw hlt
    unfold gfPolyRemainderGo
    by_cases hg : den.numTerms ≤ rem.numTerms
    · rw [if_pos hg]
      refine ih _ (gfPolyRemainderStep_wf rem den hrw) ?_
      have := gfPolyRemainderStep_numTerms_lt rem den hdn hdne hrw hdw hg
      omega
    · rw [if_neg hg]
      rfl

theorem gfPolyRemainderGo_result (den : gfPoly) :
    ∀ (fuel : Nat) (rem r : gfPoly),
      gfPolyRemainderGo fuel rem den = some r → r.numTerms < den.numTerms := by
  intro fuel
  induction fuel with
  | zero =>
    intro rem r h
    exact absurd h (by simp [gfPolyRemainderGo])
  | succ m ih =>
    intro rem r h
    unfold gfPolyRemainderGo at h
    by_cases hg : den.numTerms ≤ rem.numTerms
    · rw [if_pos hg] at h
      exact ih _ r h
    · rw [if_neg hg] at h
      have heq : rem = r := by simpa using h
      subst heq
      omega

/-- C8: for every numerator and every non-zero (normalised, well-formed)
denominator, the polynomial long-division loop of `gfPolyRemainder`
terminates: each iteration taken under the loop guard
`denominator.numTerms ≤ remainder.numTerms` strictly reduces the working
remainder's number of terms, so the loop — embedded with fuel
`numerator.numTerms + 1` — always reaches the exit condition (never
returns `none`). -/
theorem gfPolyRemainder_loop_terminates (numerator denominator : gfPoly)
    (hnw : numerator.wf) (hdw : denominator.wf)
    (hdn : denominator.isNormalised) (hdne : denominator.term ≠ []) :
    (denominator.numTerms ≤ numerator.numTerms →
      (gfPolyRemainderStep numerator denominator).numTerms
        < numerator.numTerms) ∧
    (gfPolyRemainderGo (numerator.numTerms + 1) numerator
      denominator).isSome = true :=
  ⟨fun hg => gfPolyRemainderStep_numTerms_lt _ _ hdn hdne hnw hdw hg,
   gfPolyRemainderGo_isSome _ hdn hdne hdw _ _ hnw (by omega)⟩

/-- Witness for C8 at concrete inputs. -/
theorem gfPolyRemainder_loop_terminates_witness :
    (⟨[7, 6, 5]⟩ : gfPoly).wf ∧ (⟨[2, 1]⟩ : gfPoly).wf ∧
    (⟨[2, 1]⟩ : gfPoly).isNormalised ∧ (⟨[2, 1]⟩ : gfPoly).term ≠ [] ∧
    (((⟨[2, 1]⟩ : gfPoly).numTerms ≤ (⟨[7, 6, 5]⟩ : gfPoly).numTerms →
      (gfPolyRemainderStep ⟨[7, 6, 5]⟩ ⟨[2, 1]⟩).numTerms
        < (⟨[7, 6, 5]⟩ : gfPoly).numTerms) ∧
    (gfPolyRemainderGo ((⟨[7, 6, 5]⟩ : gfPoly).numTerms + 1) ⟨[7, 6, 5]⟩
      ⟨[2, 1]⟩).isSome = true) :=
  ⟨by decide, by decide, by decide, by decide,
   gfPolyRemainder_loop_terminates ⟨[7, 6, 5]⟩ ⟨[2, 1]⟩
     (by decide) (by decide) (by decide) (by decide)⟩

/-- Core degree bound for `gfPolyRemainder` (shared helper). -/
theorem gfPolyRemainder_numTerms_lt_core (numerator denominator : gfPoly)
    (hnw : numerator.wf) (hdw : denominator.wf)
    (hdn : denominator.isNormalised) (hdne : denominator.term ≠ []) :
    (gfPolyRemainder numerator denominator).numTerms
      < denominator.numTerms := by
  unfold gfPolyRemainder
  have hall : ¬(denominator.term.all (fun x => x == 0) = true) := by
    intro hall
    have htop := normalised_nonzero_top denominator hdn hdne
    have hlen0 : denominator.term.length ≠ 0 :=
      fun h0 => hdne (List.eq_nil_of_length_eq_zero h0)
    have hlt : denominator.numTerms - 1 < denominator.term.length := by
      unfold gfPoly.numTerms
      omega
    apply htop
    unfold gfPoly.coeff
    rw [List.getD_eq_getElem _ _ hlt]
    have h9 := List.all_eq_true.mp hall _ (List.getElem_mem hlt)
    simpa using h9
  rw [if_neg hall]
  have hsome := gfPolyRemainderGo_isSome denominator hdn hdne hdw
    (numerator.numTerms + 1) numerator hnw (by omega)
  obtain ⟨r, hr⟩ := Option.isSome_iff_exists.mp hsome
  rw [hr]
  simp only [Option.getD_some]
  exact lt_of_le_of_lt (normalised_numTerms_le r)
    (gfPolyRemainderGo_result denominator _ _ r hr)

/-- C7: for every numerator polynomial and every non-zero (normalised,
well-formed) denominator polynomial over GF(2^8),
`gfPolyRemainder numerator denominator` returns a polynomial with fewer
terms than the denominator, i.e. of strictly smaller degree. -/
theorem gfPolyRemainder_numTerms_lt (numerator denominator : gfPoly)
    (hnw : numerator.wf) (hdw : denominator.wf)
    (hdn : denominator.isNormalised) (hdne : denominator.term ≠ []) :
    (gfPolyRemainder numerator denominator).numTerms
      < denominator.numTerms :=
  gfPolyRemainder_numTerms_lt_core numerator denominator hnw hdw hdn hdne

/-- Witness for C7 at concrete inputs. -/
theorem gfPolyRemainder_numTerms_lt_witness :
    (⟨[1, 2, 12, 7]⟩ : gfPoly).wf ∧ (⟨[29, 1]⟩ : gfPoly).wf ∧
    (⟨[29, 1]⟩ : gfPoly).isNormalised ∧ (⟨[29, 1]⟩ : gfPoly).term ≠ [] ∧
    (gfPolyRemainder ⟨[1, 2, 12, 7]⟩ ⟨[29, 1]⟩).numTerms
      < (⟨[29, 1]⟩ : gfPoly).numTerms :=
  ⟨by decide, by decide, by decide, by decide,
   gfPolyRemainder_numTerms_lt ⟨[1, 2, 12, 7]⟩ ⟨[29, 1]⟩
     (by decide) (by decide) (by decide) (by decide)⟩

/-- Witness for C9 at a concrete input (a multiplication vector from the
repository's own tests). -/
theorem gfDivide_gfMultiply_witness :
    1 ≤ 27 ∧ 27 ≤ 255 ∧ 1 ≤ 9 ∧ 9 ≤ 255 ∧
    gfDivide (gfMultiply 27 9) 9 = 27 :=
  ⟨by decide, by decide, by decide, by decide,
   gfDivide_gfMultiply 27 9 (by decide) (by decide) (by decide) (by decide)⟩

/-! ## Bit vector

Modelled from the spec: the bitset implementation file is not among the
provided sources; only its tests (src/unnamed/part_020) are.  Per spec
§2/§3: "Bit Vector: append-only bit sequence with byte/number accessors"
/ "ordered bit sequence, append-only growth, random positional read,
byte-aligned extraction".  A bit vector is embedded as a `List Bool`;
append is list append, `Len` is `length`, `At` is positional indexing. -/

/-- Modelled from the spec and the `TestByteAt` vectors: `byteAt b i`
packs the (up to 8) bits of `b` starting at index `i` into a byte, first
bit most significant. -/
def byteAt (b : List Bool) (i : Nat) : Nat :=
  ((b.drop i).take 8).foldl (fun acc v => 2 * acc + (if v then 1 else 0)) 0

/-- The model reproduces the `TestByteAt` vectors of the bitset tests
(src/unnamed/part_020 lines 231-253). -/
theorem byteAt_matches_tests :
    byteAt [false, true, false, true, false, true, true, false, true] 0 = 0x56 ∧
    byteAt [false, true, false, true, false, true, true, false, true] 1 = 0xad ∧
    byteAt [false, true, false, true, false, true, true, false, true] 2 = 0x2d ∧
    byteAt [false, true, false, true, false, true, true, false, true] 5 = 0x0d ∧
    byteAt [false, true, false, true, false, true, true, false, true] 8 = 0x01 := by
  decide

/-- Modelled from the spec: the 8 bits of a byte value, most significant
first (the bit pattern `AppendByte v 8` appends). -/
def byteBits (v : Nat) : List Bool :=
  (List.range 8).map (fun k => v.testBit (7 - k))

/-- Modelled from the spec: `AppendBytes` appends each byte as its 8 bits,
most significant first. -/
def appendBytes (b : List Bool) (bytes : List Nat) : List Bool :=
  b ++ bytes.flatMap byteBits

/-! ## Reed-Solomon encoder

Source: `qrcode/internal/reedsolomon` reedsolomon.go and the data-side
half of gf_poly.go (src/unnamed/part_018 lines 117-176 and part_019 lines
39-80). -/

/-- source: `newGFPolyFromData` (part_019 lines 45-60).  The j-th data
byte (8 bits at offset 8j) becomes the coefficient of
x^(numTotalBytes-1-j); i.e. the term list is the reversed byte list. -/
def newGFPolyFromData (data : List Bool) : gfPoly :=
  ⟨((List.range ((data.length + 7) / 8)).map (fun j => byteAt data (8 * j))).reverse⟩

/-- source: `gfPoly.data` (part_019 lines 72-80): the coefficients as a
big-endian byte sequence, zero-padded at the front up to `numTerms`
bytes.  The Go code indexes out of range (panics) when the polynomial has
more than `numTerms` terms; that branch is embedded as `none`. -/
def gfPoly.data (e : gfPoly) (numTerms : Nat) : Option (List Nat) :=
  if e.term.length ≤ numTerms then
    some (List.replicate (numTerms - e.term.length) 0 ++ e.term.reverse)
  else none

/-- source: `rsGeneratorPoly` (part_018 lines 165-176), the product
(x + α^0)(x + α^1)...(x + α^(degree-1)); panics for degree < 2, embedded
as `none`. -/
def rsGeneratorPoly (degree : Nat) : Option gfPoly :=
  if degree < 2 then none
  else some ((List.range degree).foldl
    (fun generator i => gfPolyMultiply generator ⟨[gfExpAt i, 1]⟩) ⟨[1]⟩)

/-- source: `Encode` (part_018 lines 135-159; Go name
`reedsolomon.Encode`): multiply the data polynomial by x^numECBytes,
take the remainder against the generator polynomial, and append its
byte form verbatim after the unmodified data bits. -/
def rsEncode (data : List Bool) (numECBytes : Nat) : Option (List Bool) :=
  match rsGeneratorPoly numECBytes with
  | none => none
  | some generator =>
    match (gfPolyRemainder
        (gfPolyMultiply (newGFPolyFromData data)
          (newGFPolyMonomial gfOne numECBytes))
        generator).data numECBytes with
    | none => none
    | some eccBytes => some (appendBytes data eccBytes)

/-! ### The generator polynomial and the shape of `rsEncode` -/

/-- The state of the generator-building loop of `rsGeneratorPoly` after
`k` iterations. -/
def rsGenIter (k : Nat) : gfPoly :=
  (List.range k).foldl
    (fun generator i => gfPolyMultiply generator ⟨[gfExpAt i, 1]⟩) ⟨[1]⟩

theorem rsGenIter_succ (k : Nat) :
    rsGenIter (k + 1) = gfPolyMultiply (rsGenIter k) ⟨[gfExpAt k, 1]⟩ := by
  unfold rsGenIter
  rw [List.range_succ, List.foldl_append, List.foldl_cons, List.foldl_nil]

theorem stripTrailingZeros_cons (x : Nat) (xs : List Nat) :
    stripTrailingZeros (x :: xs) =
      match stripTrailingZeros xs with
      | [] => if x = 0 then [] else [x]
      | ys => x :: ys := rfl

theorem stripTrailingZeros_singleton (x : Nat) :
    stripTrailingZeros [x] = if x = 0 then [] else [x] := rfl

theorem stripTrailingZeros_idem (l : List Nat) :
    stripTrailingZeros (stripTrailingZeros l) = stripTrailingZeros l := by
  induction l with
  | nil => rfl
  | cons x xs ih =>
    rw [stripTrailingZeros_cons]
    cases h : stripTrailingZeros xs with
    | nil =>
      show stripTrailingZeros (if x = 0 then [] else [x])
        = if x = 0 then [] else [x]
      by_cases hx : x = 0
      · rw [if_pos hx]
        rfl
      · rw [if_neg hx, stripTrailingZeros_singleton, if_neg hx]
    | cons y ys =>
      have h2 : stripTrailingZeros (y :: ys) = y :: ys := by
        rw [← h, ih, h]
      show stripTrailingZeros (x :: y :: ys) = x :: y :: ys
      rw [stripTrailingZeros_cons, h2]

theorem normalised_isNormalised (e : gfPoly) : e.normalised.isNormalised :=
  stripTrailingZeros_idem e.term

theorem gfPolyMultiply_isNormalised (a b : gfPoly) :
    (gfPolyMultiply a b).isNormalised := by
  unfold gfPolyMultiply
  exact normalised_isNormalised _

theorem rsGenIter_spec (k : Nat) :
    (rsGenIter k).numTerms = k + 1 ∧ (rsGenIter k).coeff k = 1 ∧
    (rsGenIter k).wf ∧ (rsGenIter k).isNormalised := by
  induction k with
  | zero => exact ⟨rfl, rfl, by decide, by decide⟩
  | succ k ih =>
    obtain ⟨hlen, htop, hwf, hnorm⟩ := ih
    rw [rsGenIter_succ]
    have hbn : (⟨[gfExpAt k, 1]⟩ : gfPoly).numTerms = 2 := rfl
    have hb1 : (⟨[gfExpAt k, 1]⟩ : gfPoly).coeff 1 = 1 := rfl
    have htop2 : (gfPolyMultiply (rsGenIter k) ⟨[gfExpAt k, 1]⟩).coeff (k + 1) = 1 := by
      rw [gfPolyMultiply_coeff]
      rw [mulCoeffAux_eq_single (rsGenIter k) ⟨[gfExpAt k, 1]⟩ (k + 1)
        (rsGenIter k).numTerms k (by omega) ?_]
      · unfold rowContrib
        have hd1 : k + 1 - k = 1 := by omega
        rw [hd1, if_pos ⟨by omega, by rw [hbn]; omega,
          by rw [htop]; omega, by rw [hb1]; omega⟩, htop, hb1]
        decide
      · intro i hi hne
        unfold rowContrib
        rw [if_neg]
        rintro ⟨h1, h2, -, -⟩
        rw [hbn, hlen] at *
        omega
    have hlen2 : (gfPolyMultiply (rsGenIter k) ⟨[gfExpAt k, 1]⟩).numTerms = k + 2 := by
      have hle := gfPolyMultiply_numTerms_le (rsGenIter k) ⟨[gfExpAt k, 1]⟩
      rw [hlen, hbn] at hle
      have hgt := coeff_ne_zero_lt _ (k + 1) (by rw [htop2]; omega)
      omega
    exact ⟨hlen2, htop2, gfPolyMultiply_wf _ _, gfPolyMultiply_isNormalised _ _⟩

theorem rsGeneratorPoly_spec (n : Nat) (hn : 2 ≤ n) :
    rsGeneratorPoly n = some (rsGenIter n) ∧ (rsGenIter n).numTerms = n + 1 ∧
    (rsGenIter n).wf ∧ (rsGenIter n).isNormalised ∧ (rsGenIter n).term ≠ [] := by
  refine ⟨?_, (rsGenIter_spec n).1, (rsGenIter_spec n).2.2.1,
    (rsGenIter_spec n).2.2.2, ?_⟩
  · unfold rsGeneratorPoly rsGenIter
    rw [if_neg (by omega)]
  · intro he
    have h1 := (rsGenIter_spec n).1
    unfold gfPoly.numTerms at h1
    rw [he] at h1
    simp at h1

theorem bitsFold_lt (l : List Bool) :
    ∀ acc, l.foldl (fun acc v => 2 * acc + (if v then 1 else 0)) acc
      < (acc + 1) * 2 ^ l.length := by
  induction l with
  | nil => intro acc; simp
  | cons v vs ih =>
    intro acc
    rw [List.foldl_cons]
    refine lt_of_lt_of_le (ih (2 * acc + (if v then 1 else 0))) ?_
    have h1 : 2 * acc + (if v then 1 else 0) + 1 ≤ 2 * (acc + 1) := by
      split <;> omega
    calc (2 * acc + (if v then 1 else 0) + 1) * 2 ^ vs.length
        ≤ (2 * (acc + 1)) * 2 ^ vs.length := Nat.mul_le_mul_right _ h1
      _ = (acc + 1) * 2 ^ (vs.length + 1) := by rw [Nat.pow_succ]; ring
      _ = (acc + 1) * 2 ^ (v :: vs).length := by rw [List.length_cons]

theorem byteAt_le (b : List Bool) (i : Nat) : byteAt b i ≤ 255 := by
  unfold byteAt
  have h1 := bitsFold_lt ((b.drop i).take 8) 0
  have h2 : ((b.drop i).take 8).length ≤ 8 := by
    rw [List.length_take]
    omega
  have h3 : (2 : Nat) ^ ((b.drop i).take 8).length ≤ 2 ^ 8 :=
    Nat.pow_le_pow_right (by omega) h2
  omega

theorem newGFPolyFromData_wf (data : List Bool) : (newGFPolyFromData data).wf := by
  intro x hx
  unfold newGFPolyFromData at hx
  simp only [List.mem_reverse, List.mem_map, List.mem_range] at hx
  obtain ⟨j, -, hj⟩ := hx
  rw [← hj]
  exact byteAt_le data (8 * j)

theorem flatMap_byteBits_length (bytes : List Nat) :
    (bytes.flatMap byteBits).length = 8 * bytes.length := by
  induction bytes with
  | nil => rfl
  | cons v vs ih =>
    rw [List.flatMap_cons, List.length_append, ih]
    have h8 : (byteBits v).length = 8 := by
      unfold byteBits
      simp
    rw [h8, List.length_cons]
    ring

/-- C4: for every byte-aligned data bitset and every ECC byte count
n ≥ 2, `rsEncode` succeeds and returns the original data bits followed
verbatim by the byte form of the n remainder coefficients of the data
polynomial times x^n modulo the generator polynomial: the first
`data.length` bits of the result equal `data` bit-for-bit (the data bits
are copied, never re-derived from the polynomial form) and the total
length is `data.length + 8 * n`. -/
theorem rsEncode_spec (data : List Bool) (n : Nat)
    (hmod : data.length % 8 = 0) (hn : 2 ≤ n) :
    ∃ eccBytes : List Nat,
      (gfPolyRemainder
        (gfPolyMultiply (newGFPolyFromData data) (newGFPolyMonomial gfOne n))
        (rsGenIter n)).data n = some eccBytes ∧
      eccBytes.length = n ∧
      rsEncode data n = some (appendBytes data eccBytes) ∧
      (appendBytes data eccBytes).take data.length = data ∧
      (appendBytes data eccBytes).length = data.length + 8 * n := by
  obtain ⟨hgen, hglen, hgwf, hgnorm, hgne⟩ := rsGeneratorPoly_spec n hn
  have hecwf : (gfPolyMultiply (newGFPolyFromData data)
      (newGFPolyMonomial gfOne n)).wf := gfPolyMultiply_wf _ _
  have hrem := gfPolyRemainder_numTerms_lt_core
    (gfPolyMultiply (newGFPolyFromData data) (newGFPolyMonomial gfOne n))
    (rsGenIter n) hecwf hgwf hgnorm hgne
  rw [hglen] at hrem
  have hrlen : (gfPolyRemainder (gfPolyMultiply (newGFPolyFromData data)
      (newGFPolyMonomial gfOne n)) (rsGenIter n)).term.length ≤ n := by
    unfold gfPoly.numTerms at hrem
    omega
  have hdata : (gfPolyRemainder (gfPolyMultiply (newGFPolyFromData data)
      (newGFPolyMonomial gfOne n)) (rsGenIter n)).data n
      = some (List.replicate (n - (gfPolyRemainder (gfPolyMultiply
            (newGFPolyFromData data) (newGFPolyMonomial gfOne n))
            (rsGenIter n)).term.length) 0 ++
          (gfPolyRemainder (gfPolyMultiply (newGFPolyFromData data)
            (newGFPolyMonomial gfOne n)) (rsGenIter n)).term.reverse) := by
    unfold gfPoly.data
    rw [if_pos hrlen]
  refine ⟨_, hdata, ?_, ?_, ?_, ?_⟩
  · rw [List.length_append, List.length_replicate, List.length_reverse]
    omega
  · unfold rsEncode
    simp only [hgen, hdata]
  · unfold appendBytes
    exact List.take_left _ _
  · unfold appendBytes
    rw [List.length_append, flatMap_byteBits_length, List.length_append,
      List.length_replicate, List.length_reverse]
    omega

/-- Witness for C4 at a concrete one-byte input with two ECC bytes. -/
theorem rsEncode_spec_witness :
    ([false, true, false, false, false, false, false, false] :
      List Bool).length % 8 = 0 ∧ 2 ≤ 2 ∧
    (∃ eccBytes : List Nat,
      (gfPolyRemainder
        (gfPolyMultiply
          (newGFPolyFromData
            [false, true, false, false, false, false, false, false])
          (newGFPolyMonomial gfOne 2))
        (rsGenIter 2)).data 2 = some eccBytes ∧
      eccBytes.length = 2 ∧
      rsEncode [false, true, false, false, false, false, false, false] 2
        = some (appendBytes
            [false, true, false, false, false, false, false, false] eccBytes) ∧
      (appendBytes [false, true, false, false, false, false, false, false]
        eccBytes).take
          ([false, true, false, false, false, false, false, false] :
            List Bool).length
        = [false, true, false, false, false, false, false, false] ∧
      (appendBytes [false, true, false, false, false, false, false, false]
        eccBytes).length
        = ([false, true, false, false, false, false, false, false] :
            List Bool).length + 8 * 2) :=
  ⟨by decide, by decide,
   rsEncode_spec [false, true, false, false, false, false, false, false] 2
     (by decide) (by decide)⟩

/-! ## QR code versions and capacity table

Source: version.go. -/

/-- source: `RecoveryLevel` (version.go lines 36-50). -/
inductive RecoveryLevel where
  | Low
  | Medium
  | High
  | Highest
deriving DecidableEq

/-- source: `block` (version.go lines 73-81). -/
structure block where
  numBlocks : Nat
  numCodewords : Nat
  numDataCodewords : Nat
deriving DecidableEq

/-- source: `qrCodeVersion` (version.go lines 55-71). -/
structure qrCodeVersion where
  version : Nat
  level : RecoveryLevel
  block : List block
  numRemainderBits : Nat
deriving DecidableEq

/-- Rows 1-20 of the capacity table. -/
def versionsPart0 : List qrCodeVersion := [
  ⟨1, .Low, [⟨1, 26, 19⟩], 0⟩,
  ⟨1, .Medium, [⟨1, 26, 16⟩], 0⟩,
  ⟨1, .High, [⟨1, 26, 13⟩], 0⟩,
  ⟨1, .Highest, [⟨1, 26, 9⟩], 0⟩,
  ⟨2, .Low, [⟨1, 44, 34⟩], 7⟩,
  ⟨2, .Medium, [⟨1, 44, 28⟩], 7⟩,
  ⟨2, .High, [⟨1, 44, 22⟩], 7⟩,
  ⟨2, .Highest, [⟨1, 44, 16⟩], 7⟩,
  ⟨3, .Low, [⟨1, 70, 55⟩], 7⟩,
  ⟨3, .Medium, [⟨1, 70, 44⟩], 7⟩,
  ⟨3, .High, [⟨2, 35, 17⟩], 7⟩,
  ⟨3, .Highest, [⟨2, 35, 13⟩], 7⟩,
  ⟨4, .Low, [⟨1, 100, 80⟩], 7⟩,
  ⟨4, .Medium, [⟨2, 50, 32⟩], 7⟩,
  ⟨4, .High, [⟨2, 50, 24⟩], 7⟩,
  ⟨4, .Highest, [⟨4, 25, 9⟩], 7⟩,
  ⟨5, .Low, [⟨1, 134, 108⟩], 7⟩,
  ⟨5, .Medium, [⟨2, 67, 43⟩], 7⟩,
  ⟨5, .High, [⟨2, 33, 15⟩, ⟨2, 34, 16⟩], 7⟩,
  ⟨5, .Highest, [⟨2, 33, 11⟩, ⟨2, 34, 12⟩], 7⟩]

/-- Rows 21-40 of the capacity table. -/
def versionsPart1 : List qrCodeVersion := [
  ⟨6, .Low, [⟨2, 86, 68⟩], 7⟩,
  ⟨6, .Medium, [⟨4, 43, 27⟩], 7⟩,
  ⟨6, .High, [⟨4, 43, 19⟩], 7⟩,
  ⟨6, .Highest, [⟨4, 43, 15⟩], 7⟩,
  ⟨7, .Low, [⟨2, 98, 78⟩], 0⟩,
  ⟨7, .Medium, [⟨4, 49, 31⟩], 0⟩,
  ⟨7, .High, [⟨2, 32, 14⟩, ⟨4, 33, 15⟩], 0⟩,
  ⟨7, .Highest, [⟨4, 39, 13⟩, ⟨1, 40, 14⟩], 0⟩,
  ⟨8, .Low, [⟨2, 121, 97⟩], 0⟩,
  ⟨8, .Medium, [⟨2, 60, 38⟩, ⟨2, 61, 39⟩], 0⟩,
  ⟨8, .High, [⟨4, 40, 18⟩, ⟨2, 41, 19⟩], 0⟩,
  ⟨8, .Highest, [⟨4, 40, 14⟩, ⟨2, 41, 15⟩], 0⟩,
  ⟨9, .Low, [⟨2, 146, 116⟩], 0⟩,
  ⟨9, .Medium, [⟨3, 58, 36⟩, ⟨2, 59, 37⟩], 0⟩,
  ⟨9, .High, [⟨4, 36, 16⟩, ⟨4, 37, 17⟩], 0⟩,
  ⟨9, .Highest, [⟨4, 36, 12⟩, ⟨4, 37, 13⟩], 0⟩,
  ⟨10, .Low, [⟨2, 86, 68⟩, ⟨2, 87, 69⟩], 0⟩,
  ⟨10, .Medium, [⟨4, 69, 43⟩, ⟨1, 70, 44⟩], 0⟩,
  ⟨10, .High, [⟨6, 43, 19⟩, ⟨2, 44, 20⟩], 0⟩,
  ⟨10, .Highest, [⟨6, 43, 15⟩, ⟨2, 44, 16⟩], 0⟩]

/-- Rows 41-60 of the capacity table. -/
def versionsPart2 : List qrCodeVersion := [
  ⟨11, .Low, [⟨4, 101, 81⟩], 0⟩,
  ⟨11, .Medium, [⟨1, 80, 50⟩, ⟨4, 81, 51⟩], 0⟩,
  ⟨11, .High, [⟨4, 50, 22⟩, ⟨4, 51, 23⟩], 0⟩,
  ⟨11, .Highest, [⟨3, 36, 12⟩, ⟨8, 37, 13⟩], 0⟩,
  ⟨12, .Low, [⟨2, 116, 92⟩, ⟨2, 117, 93⟩], 0⟩,
  ⟨12, .Medium, [⟨6, 58, 36⟩, ⟨2, 59, 37⟩], 0⟩,
  ⟨12, .High, [⟨4, 46, 20⟩, ⟨6, 47, 21⟩], 0⟩,
  ⟨12, .Highest, [⟨7, 42, 14⟩, ⟨4, 43, 15⟩], 0⟩,
  ⟨13, .Low, [⟨4, 133, 107⟩], 0⟩,
  ⟨13, .Medium, [⟨8, 59, 37⟩, ⟨1, 60, 38⟩], 0⟩,
  ⟨13, .High, [⟨8, 44, 20⟩, ⟨4, 45, 21⟩], 0⟩,
  ⟨13, .Highest, [⟨12, 33, 11⟩, ⟨4, 34, 12⟩], 0⟩,
  ⟨14, .Low, [⟨3, 145, 115⟩, ⟨1, 146, 116⟩], 3⟩,
  ⟨14, .Medium, [⟨4, 64, 40⟩, ⟨5, 65, 41⟩], 3⟩,
  ⟨14, .High, [⟨11, 36, 16⟩, ⟨5, 37, 17⟩], 3⟩,
  ⟨14, .Highest, [⟨11, 36, 12⟩, ⟨5, 37, 13⟩], 3⟩,
  ⟨15, .Low, [⟨5, 109, 87⟩, ⟨1, 110, 88⟩], 3⟩,
  ⟨15, .Medium, [⟨5, 65, 41⟩, ⟨5, 66, 42⟩], 3⟩,
  ⟨15, .High, [⟨5, 54, 24⟩, ⟨7, 55, 25⟩], 3⟩,
  ⟨15, .Highest, [⟨11, 36, 12⟩, ⟨7, 37, 13⟩], 3⟩]

/-- Rows 61-80 of the capacity table. -/
def versionsPart3 : List qrCodeVersion := [
  ⟨16, .Low, [⟨5, 122, 98⟩, ⟨1, 123, 99⟩], 3⟩,
  ⟨16, .Medium, [⟨7, 73, 45⟩, ⟨3, 74, 46⟩], 3⟩,
  ⟨16, .High, [⟨15, 43, 19⟩, ⟨2, 44, 20⟩], 3⟩,
  ⟨16, .Highest, [⟨3, 45, 15⟩, ⟨13, 46, 16⟩], 3⟩,
  ⟨17, .Low, [⟨1, 135, 107⟩, ⟨5, 136, 108⟩], 3⟩,
  ⟨17, .Medium, [⟨10, 74, 46⟩, ⟨1, 75, 47⟩], 3⟩,
  ⟨17, .High, [⟨1, 50, 22⟩, ⟨15, 51, 23⟩], 3⟩,
  ⟨17, .Highest, [⟨2, 42, 14⟩, ⟨17, 43, 15⟩], 3⟩,
  ⟨18, .Low, [⟨5, 150, 120⟩, ⟨1, 151, 121⟩], 3⟩,
  ⟨18, .Medium, [⟨9, 69, 43⟩, ⟨4, 70, 44⟩], 3⟩,
  ⟨18, .High, [⟨17, 50, 22⟩, ⟨1, 51, 23⟩], 3⟩,
  ⟨18, .Highest, [⟨2, 42, 14⟩, ⟨19, 43, 15⟩], 3⟩,
  ⟨19, .Low, [⟨3, 141, 113⟩, ⟨4, 142, 114⟩], 3⟩,
  ⟨19, .Medium, [⟨3, 70, 44⟩, ⟨11, 71, 45⟩], 3⟩,
  ⟨19, .High, [⟨17, 47, 21⟩, ⟨4, 48, 22⟩], 3⟩,
  ⟨19, .Highest, [⟨9, 39, 13⟩, ⟨16, 40, 14⟩], 3⟩,
  ⟨20, .Low, [⟨3, 135, 107⟩, ⟨5, 136, 108⟩], 3⟩,
  ⟨20, .Medium, [⟨3, 67, 41⟩, ⟨13, 68, 42⟩], 3⟩,
  ⟨20, .High, [⟨15, 54, 24⟩, ⟨5, 55, 25⟩], 3⟩,
  ⟨20, .Highest, [⟨15, 43, 15⟩, ⟨10, 44, 16⟩], 3⟩]

/-- Rows 81-100 of the capacity table. -/
def versionsPart4 : List qrCodeVersion := [
  ⟨21, .Low, [⟨4, 144, 116⟩, ⟨4, 145, 117⟩], 4⟩,
  ⟨21, .Medium, [⟨17, 68, 42⟩], 4⟩,
  ⟨21, .High, [⟨17, 50, 22⟩, ⟨6, 51, 23⟩], 4⟩,
  ⟨21, .Highest, [⟨19, 46, 16⟩, ⟨6, 47, 17⟩], 4⟩,
  ⟨22, .Low, [⟨2, 139, 111⟩, ⟨7, 140, 112⟩], 4⟩,
  ⟨22, .Medium, [⟨17, 74, 46⟩], 4⟩,
  ⟨22, .High, [⟨7, 54, 24⟩, ⟨16, 55, 25⟩], 4⟩,
  ⟨22, .Highest, [⟨34, 37, 13⟩], 4⟩,
  ⟨23, .Low, [⟨4, 151, 121⟩, ⟨5, 152, 122⟩], 4⟩,
  ⟨23, .Medium, [⟨4, 75, 47⟩, ⟨14, 76, 48⟩], 4⟩,
  ⟨23, .High, [⟨11, 54, 24⟩, ⟨14, 55, 25⟩], 4⟩,
  ⟨23, .Highest, [⟨16, 45, 15⟩, ⟨14, 46, 16⟩], 4⟩,
  ⟨24, .Low, [⟨6, 147, 117⟩, ⟨4, 148, 118⟩], 4⟩,
  ⟨24, .Medium, [⟨6, 73, 45⟩, ⟨14, 74, 46⟩], 4⟩,
  ⟨24, .High, [⟨11, 54, 24⟩, ⟨16, 55, 25⟩], 4⟩,
  ⟨24, .Highest, [⟨30, 46, 16⟩, ⟨2, 47, 17⟩], 4⟩,
  ⟨25, .Low, [⟨8, 132, 106⟩, ⟨4, 133, 107⟩], 4⟩,
  ⟨25, .Medium, [⟨8, 75, 47⟩, ⟨13, 76, 48⟩], 4⟩,
  ⟨25, .High, [⟨7, 54, 24⟩, ⟨22, 55, 25⟩], 4⟩,
  ⟨25, .Highest, [⟨22, 45, 15⟩, ⟨13, 46, 16⟩], 4⟩]

/-- Rows 101-120 of the capacity table. -/
def versionsPart5 : List qrCodeVersion := [
  ⟨26, .Low, [⟨10, 142, 114⟩, ⟨2, 143, 115⟩], 4⟩,
  ⟨26, .Medium, [⟨19, 74, 46⟩, ⟨4, 75, 47⟩], 4⟩,
  ⟨26, .High, [⟨28, 50, 22⟩, ⟨6, 51, 23⟩], 4⟩,
  ⟨26, .Highest, [⟨33, 46, 16⟩, ⟨4, 47, 17⟩], 4⟩,
  ⟨27, .Low, [⟨8, 152, 122⟩, ⟨4, 153, 123⟩], 4⟩,
  ⟨27, .Medium, [⟨22, 73, 45⟩, ⟨3, 74, 46⟩], 4⟩,
  ⟨27, .High, [⟨8, 53, 23⟩, ⟨26, 54, 24⟩], 4⟩,
  ⟨27, .Highest, [⟨12, 45, 15⟩, ⟨28, 46, 16⟩], 4⟩,
  ⟨28, .Low, [⟨3, 147, 117⟩, ⟨10, 148, 118⟩], 3⟩,
  ⟨28, .Medium, [⟨3, 73, 45⟩, ⟨23, 74, 46⟩], 3⟩,
  ⟨28, .High, [⟨4, 54, 24⟩, ⟨31, 55, 25⟩], 3⟩,
  ⟨28, .Highest, [⟨11, 45, 15⟩, ⟨31, 46, 16⟩], 3⟩,
  ⟨29, .Low, [⟨7, 146, 116⟩, ⟨7, 147, 117⟩], 3⟩,
  ⟨29, .Medium, [⟨21, 73, 45⟩, ⟨7, 74, 46⟩], 3⟩,
  ⟨29, .High, [⟨1, 53, 23⟩, ⟨37, 54, 24⟩], 3⟩,
  ⟨29, .Highest, [⟨19, 45, 15⟩, ⟨26, 46, 16⟩], 3⟩,
  ⟨30, .Low, [⟨5, 145, 115⟩, ⟨10, 146, 116⟩], 3⟩,
  ⟨30, .Medium, [⟨19, 75, 47⟩, ⟨10, 76, 48⟩], 3⟩,
  ⟨30, .High, [⟨15, 54, 24⟩, ⟨25, 55, 25⟩], 3⟩,
  ⟨30, .Highest, [⟨23, 45, 15⟩, ⟨25, 46, 16⟩], 3⟩]

/-- Rows 121-140 of the capacity table. -/
def versionsPart6 : List qrCodeVersion := [
  ⟨31, .Low, [⟨13, 145, 115⟩, ⟨3, 146, 116⟩], 3⟩,
  ⟨31, .Medium, [⟨2, 74, 46⟩, ⟨29, 75, 47⟩], 3⟩,
  ⟨31, .High, [⟨42, 54, 24⟩, ⟨1, 55, 25⟩], 3⟩,
  ⟨31, .Highest, [⟨23, 45, 15⟩, ⟨28, 46, 16⟩], 3⟩,
  ⟨32, .Low, [⟨17, 145, 115⟩], 3⟩,
  ⟨32, .Medium, [⟨10, 74, 46⟩, ⟨23, 75, 47⟩], 3⟩,
  ⟨32, .High, [⟨10, 54, 24⟩, ⟨35, 55, 25⟩], 3⟩,
  ⟨32, .Highest, [⟨19, 45, 15⟩, ⟨35, 46, 16⟩], 3⟩,
  ⟨33, .Low, [⟨17, 145, 115⟩, ⟨1, 146, 116⟩], 3⟩,
  ⟨33, .Medium, [⟨14, 74, 46⟩, ⟨21, 75, 47⟩], 3⟩,
  ⟨33, .High, [⟨29, 54, 24⟩, ⟨19, 55, 25⟩], 3⟩,
  ⟨33, .Highest, [⟨11, 45, 15⟩, ⟨46, 46, 16⟩], 3⟩,
  ⟨34, .Low, [⟨13, 145, 115⟩, ⟨6, 146, 116⟩], 3⟩,
  ⟨34, .Medium, [⟨14, 74, 46⟩, ⟨23, 75, 47⟩], 3⟩,
  ⟨34, .High, [⟨44, 54, 24⟩, ⟨7, 55, 25⟩], 3⟩,
  ⟨34, .Highest, [⟨59, 46, 16⟩, ⟨1, 47, 17⟩], 3⟩,
  ⟨35, .Low, [⟨12, 151, 121⟩, ⟨7, 152, 122⟩], 0⟩,
  ⟨35, .Medium, [⟨12, 75, 47⟩, ⟨26, 76, 48⟩], 0⟩,
  ⟨35, .High, [⟨39, 54, 24⟩, ⟨14, 55, 25⟩], 0⟩,
  ⟨35, .Highest, [⟨22, 45, 15⟩, ⟨41, 46, 16⟩], 0⟩]

/-- Rows 141-160 of the capacity table. -/
def versionsPart7 : List qrCodeVersion := [
  ⟨36, .Low, [⟨6, 151, 121⟩, ⟨14, 152, 122⟩], 0⟩,
  ⟨36, .Medium, [⟨6, 75, 47⟩, ⟨34, 76, 48⟩], 0⟩,
  ⟨36, .High, [⟨46, 54, 24⟩, ⟨10, 55, 25⟩], 0⟩,
  ⟨36, .Highest, [⟨2, 45, 15⟩, ⟨64, 46, 16⟩], 0⟩,
  ⟨37, .Low, [⟨17, 152, 122⟩, ⟨4, 153, 123⟩], 0⟩,
  ⟨37, .Medium, [⟨29, 74, 46⟩, ⟨14, 75, 47⟩], 0⟩,
  ⟨37, .High, [⟨49, 54, 24⟩, ⟨10, 55, 25⟩], 0⟩,
  ⟨37, .Highest, [⟨24, 45, 15⟩, ⟨46, 46, 16⟩], 0⟩,
  ⟨38, .Low, [⟨4, 152, 122⟩, ⟨18, 153, 123⟩], 0⟩,
  ⟨38, .Medium, [⟨13, 74, 46⟩, ⟨32, 75, 47⟩], 0⟩,
  ⟨38, .High, [⟨48, 54, 24⟩, ⟨14, 55, 25⟩], 0⟩,
  ⟨38, .Highest, [⟨42, 45, 15⟩, ⟨32, 46, 16⟩], 0⟩,
  ⟨39, .Low, [⟨20, 147, 117⟩, ⟨4, 148, 118⟩], 0⟩,
  ⟨39, .Medium, [⟨40, 75, 47⟩, ⟨7, 76, 48⟩], 0⟩,
  ⟨39, .High, [⟨43, 54, 24⟩, ⟨22, 55, 25⟩], 0⟩,
  ⟨39, .Highest, [⟨10, 45, 15⟩, ⟨67, 46, 16⟩], 0⟩,
  ⟨40, .Low, [⟨19, 148, 118⟩, ⟨6, 149, 119⟩], 0⟩,
  ⟨40, .Medium, [⟨18, 75, 47⟩, ⟨31, 76, 48⟩], 0⟩,
  ⟨40, .High, [⟨34, 54, 24⟩, ⟨34, 55, 25⟩], 0⟩,
  ⟨40, .Highest, [⟨20, 45, 15⟩, ⟨61, 46, 16⟩], 0⟩]

/-- source: the 160-entry capacity table `versions` (version.go lines
83-244), split into eight 20-row pieces to keep elaboration linear. -/
def versions : List qrCodeVersion :=
  versionsPart0 ++ versionsPart1 ++ versionsPart2 ++ versionsPart3 ++ versionsPart4 ++ versionsPart5 ++ versionsPart6 ++ versionsPart7

/-- source: `qrCodeVersion.numDataBits` (version.go lines 400-406). -/
def qrCodeVersion.numDataBits (v : qrCodeVersion) : Nat :=
  v.block.foldl (fun acc b => acc + 8 * b.numBlocks * b.numDataCodewords) 0

/-- source: `qrCodeVersion.numBlocks` (version.go lines 445-451). -/
def qrCodeVersion.numBlocks (v : qrCodeVersion) : Nat :=
  v.block.foldl (fun acc b => acc + b.numBlocks) 0

/-- source: `qrCodeVersion.numTerminatorBitsRequired` (version.go lines
436-442): min(4, free bits).  The Go function returns a (possibly
negative) int; its callers only pass `numDataBits ≤ capacity`, where the
Nat embedding agrees. -/
def qrCodeVersion.numTerminatorBitsRequired (v : qrCodeVersion)
    (numDataBits : Nat) : Nat :=
  if 4 ≤ v.numDataBits - numDataBits then 4 else v.numDataBits - numDataBits

/-- source: `qrCodeVersion.numBitsToPadToCodeword` (version.go lines
453-460). -/
def qrCodeVersion.numBitsToPadToCodeword (v : qrCodeVersion)
    (numDataBits : Nat) : Nat :=
  if numDataBits = v.numDataBits then 0 else (8 - numDataBits % 8) % 8

/-- source: `qrCodeVersion.symbolSize` (version.go lines 465-467). -/
def qrCodeVersion.symbolSize (v : qrCodeVersion) : Nat :=
  21 + (v.version - 1) * 4

/-- source: `qrCodeVersion.quietZoneSize` (version.go lines 471-473). -/
def qrCodeVersion.quietZoneSize (_ : qrCodeVersion) : Nat := 4

/-! ## Data encoder brackets

Modelled from the spec: the data-encoder implementation file is not among
the provided sources; only its tests are.  Per spec §4.5 there are three
variants by version bracket (1-9, 10-26, 27-40); each has a supported
version range and a per-mode character-count field width.  The widths are
pinned by the spec's exact capacity boundaries (41 numeric / 25
alphanumeric / 17 bytes at version 1 Low; 7089 numeric digits at version
40 Low). -/

structure dataEncoder where
  minVersion : Nat
  maxVersion : Nat
  numNumericCharCountBits : Nat
  numAlphanumericCharCountBits : Nat
  numByteCharCountBits : Nat
deriving DecidableEq

/-- Modelled from the spec: the bracket for versions 1-9. -/
def dataEncoderType1To9 : dataEncoder := ⟨1, 9, 10, 9, 8⟩

/-- Modelled from the spec: the bracket for versions 10-26. -/
def dataEncoderType10To26 : dataEncoder := ⟨10, 26, 12, 11, 16⟩

/-- Modelled from the spec: the bracket for versions 27-40. -/
def dataEncoderType27To40 : dataEncoder := ⟨27, 40, 14, 13, 16⟩

/-- Modelled from the spec: the three encoder brackets, tried narrowest
first by `New`. -/
def allDataEncoder : List dataEncoder :=
  [dataEncoderType1To9, dataEncoderType10To26, dataEncoderType27To40]

/-- The scan loop of `chooseQRCodeVersion` (version.go lines 419-432):
skip other levels and versions below the bracket, break past the
bracket's maximum, and take the first version with enough data bits. -/
def chooseGo (level : RecoveryLevel) (encoder : dataEncoder)
    (numDataBits : Nat) : List qrCodeVersion → Option qrCodeVersion
  | [] => none
  | v :: rest =>
    if v.level ≠ level then chooseGo level encoder numDataBits rest
    else if v.version < encoder.minVersion then
      chooseGo level encoder numDataBits rest
    else if encoder.maxVersion < v.version then none
    else if numDataBits ≤ v.numDataBits then some v
    else chooseGo level encoder numDataBits rest

/-- source: `chooseQRCodeVersion` (version.go lines 416-434). -/
def chooseQRCodeVersion (level : RecoveryLevel) (encoder : dataEncoder)
    (numDataBits : Nat) : Option qrCodeVersion :=
  chooseGo level encoder numDataBits versions

/-- A version record satisfies the request: right level, inside the
bracket's supported range, and enough data-bit capacity. -/
def versionFits (level : RecoveryLevel) (encoder : dataEncoder)
    (numDataBits : Nat) (v : qrCodeVersion) : Prop :=
  v.level = level ∧ encoder.minVersion ≤ v.version ∧
  v.version ≤ encoder.maxVersion ∧ numDataBits ≤ v.numDataBits

instance (level : RecoveryLevel) (encoder : dataEncoder)
    (numDataBits : Nat) (v : qrCodeVersion) :
    Decidable (versionFits level encoder numDataBits v) := by
  unfold versionFits
  infer_instance

theorem chooseGo_spec (level : RecoveryLevel) (encoder : dataEncoder)
    (numDataBits : Nat) :
    ∀ l : List qrCodeVersion, l.Pairwise (fun a b => a.version ≤ b.version) →
    (match chooseGo level encoder numDataBits l with
     | some v => v ∈ l ∧ versionFits level encoder numDataBits v ∧
         ∀ w ∈ l, versionFits level encoder numDataBits w →
           v.version ≤ w.version
     | none => ∀ w ∈ l, ¬ versionFits level encoder numDataBits w) := by
  intro l
  induction l with
  | nil =>
    intro _
    intro w hw
    simp at hw
  | cons v rest ih =>
    intro hpair
    rw [List.pairwise_cons] at hpair
    obtain ⟨hhead, htail⟩ := hpair
    have ihr := ih htail
    unfold chooseGo
    by_cases h1 : v.level ≠ level
    · rw [if_pos h1]
      cases hres : chooseGo level encoder numDataBits rest with
      | some u =>
        rw [hres] at ihr
        refine ⟨List.mem_cons_of_mem _ ihr.1, ihr.2.1, ?_⟩
        intro w hw hfit
        rcases List.mem_cons.mp hw with hw | hw
        · subst hw
          exact absurd hfit.1 h1
        · exact ihr.2.2 w hw hfit
      | none =>
        rw [hres] at ihr
        intro w hw hfit
        rcases List.mem_cons.mp hw with hw | hw
        · subst hw
          exact h1 hfit.1
        · exact ihr w hw hfit
    · rw [if_neg h1]
      by_cases h2 : v.version < encoder.minVersion
      · rw [if_pos h2]
        cases hres : chooseGo level encoder numDataBits rest with
        | some u =>
          rw [hres] at ihr
          refine ⟨List.mem_cons_of_mem _ ihr.1, ihr.2.1, ?_⟩
          intro w hw hfit
          rcases List.mem_cons.mp hw with hw | hw
          · subst hw
            have := hfit.2.1
            omega
          · exact ihr.2.2 w hw hfit
        | none =>
          rw [hres] at ihr
          intro w hw hfit
          rcases List.mem_cons.mp hw with hw | hw
          · subst hw
            have := hfit.2.1
            omega
          · exact ihr w hw hfit
      · rw [if_neg h2]
        by_cases h3 : encoder.maxVersion < v.version
        · rw [if_pos h3]
          intro w hw hfit
          rcases List.mem_cons.mp hw with hw | hw
          · subst hw
            have := hfit.2.2.1
            omega
          · have hvw := hhead w hw
            have := hfit.2.2.1
            omega
        · rw [if_neg h3]
          by_cases h4 : numDataBits ≤ v.numDataBits
          · rw [if_pos h4]
            refine ⟨List.mem_cons_self _ _,
              ⟨not_not.mp h1, by omega, by omega, h4⟩, ?_⟩
            intro w hw hfit
            rcases List.mem_cons.mp hw with hw | hw
            · subst hw
              exact le_refl _
            · exact hhead w hw
          · rw [if_neg h4]
            cases hres : chooseGo level encoder numDataBits rest with
            | some u =>
              rw [hres] at ihr
              refine ⟨List.mem_cons_of_mem _ ihr.1, ihr.2.1, ?_⟩
              intro w hw hfit
              rcases List.mem_cons.mp hw with hw | hw
              · subst hw
                exact absurd hfit.2.2.2 h4
              · exact ihr.2.2 w hw hfit
            | none =>
              rw [hres] at ihr
              intro w hw hfit
              rcases List.mem_cons.mp hw with hw | hw
              · subst hw
                exact h4 hfit.2.2.2
              · exact ihr w hw hfit

/-- Boolean check that adjacent table rows have ascending version
numbers. -/
def sortedByVersion : List qrCodeVersion → Bool
  | [] => true
  | [_] => true
  | a :: b :: rest => Nat.ble a.version b.version && sortedByVersion (b :: rest)

theorem sortedByVersion_pairwise : ∀ l : List qrCodeVersion,
    sortedByVersion l = true → l.Pairwise (fun a b => a.version ≤ b.version) := by
  intro l
  induction l with
  | nil => intro _; exact List.Pairwise.nil
  | cons a rest ih =>
    intro h
    cases rest with
    | nil =>
      refine List.Pairwise.cons ?_ List.Pairwise.nil
      intro b hb
      simp at hb
    | cons b rest2 =>
      unfold sortedByVersion at h
      rw [Bool.and_eq_true] at h
      obtain ⟨hab, hrest⟩ := h
      have hab2 : a.version ≤ b.version := Nat.le_of_ble_eq_true hab
      have hp0 := ih hrest
      have hp1 := (List.pairwise_cons.mp hp0).1
      rw [List.pairwise_cons]
      refine ⟨?_, hp0⟩
      intro c hc
      rcases List.mem_cons.mp hc with hc | hc
      · subst hc
        exact hab2
      · exact le_trans hab2 (hp1 c hc)

/-- The capacity table is sorted by ascending version number. -/
theorem versions_sorted :
    versions.Pairwise (fun a b => a.version ≤ b.version) :=
  sortedByVersion_pairwise versions (by decide)

/-- C5: for every recovery level, data-encoder bracket and required
bit-length, `chooseQRCodeVersion` returns a version of that level within
the bracket's supported range `[minVersion, maxVersion]` whose data-bit
capacity `numDataBits` is at least the required length, and it is the
one with the smallest version number among all such table entries; it
returns `none` exactly when no version in the bracket fits. -/
theorem chooseQRCodeVersion_spec (level : RecoveryLevel)
    (encoder : dataEncoder) (numDataBits : Nat) :
    (match chooseQRCodeVersion level encoder numDataBits with
     | some v => v ∈ versions ∧ versionFits level encoder numDataBits v ∧
         ∀ w ∈ versions, versionFits level encoder numDataBits w →
           v.version ≤ w.version
     | none => ∀ w ∈ versions, ¬ versionFits level encoder numDataBits w) :=
  chooseGo_spec level encoder numDataBits versions versions_sorted

/-- Witness for C5 at a concrete request (Low level, bracket 1-9, 100
bits). -/
theorem chooseQRCodeVersion_spec_witness :
    (match chooseQRCodeVersion RecoveryLevel.Low dataEncoderType1To9 100 with
     | some v => v ∈ versions ∧
         versionFits RecoveryLevel.Low dataEncoderType1To9 100 v ∧
         ∀ w ∈ versions, versionFits RecoveryLevel.Low dataEncoderType1To9 100 w →
           v.version ≤ w.version
     | none => ∀ w ∈ versions,
         ¬ versionFits RecoveryLevel.Low dataEncoderType1To9 100 w) :=
  chooseQRCodeVersion_spec RecoveryLevel.Low dataEncoderType1To9 100

/-! ## Terminator bits and padding

Source: qrcode.go (src/unnamed/part_017). -/

/-- source: `QRCode.addTerminatorBits` (part_017 lines 229-231) combined
with the terminator-bit count computed in `QRCode.encode` (line 195). -/
def addTerminatorBits (v : qrCodeVersion) (data : List Bool) : List Bool :=
  data ++ List.replicate (v.numTerminatorBitsRequired data.length) false

/-- The two alternating pad codewords 0b11101100 and 0b00010001
(part_017 lines 313-316). -/
def padCodewords : List (List Bool) :=
  [[true, true, true, false, true, true, false, false],
   [false, false, false, true, false, false, false, true]]

/-- The alternating pad-codeword loop of `addPadding` (part_017 lines
318-324).  The Go index alternates between 0 and 1 via `i = 1 - i`; the
embedding reads the pad table at `i % 2`, which agrees on those values
and keeps the recursion well-founded for every index. -/
def padLoop (numDataBits : Nat) (i : Nat) (data : List Bool) : List Bool :=
  if 8 ≤ numDataBits - data.length then
    padLoop numDataBits (1 - i) (data ++ padCodewords.getD (i % 2) [])
  else data
termination_by numDataBits - data.length
decreasing_by
  have h2 : (padCodewords.getD (i % 2) []).length = 8 := by
    rcases Nat.mod_two_eq_zero_or_one i with h | h <;> rw [h] <;> rfl
  rw [List.length_append, h2]
  omega

/-- source: `QRCode.addPadding` (part_017 lines 302-329).  The final
length check panics in Go ("BUG: got len ..."); that branch is embedded
as `none`. -/
def addPadding (v : qrCodeVersion) (data : List Bool) : Option (List Bool) :=
  if data.length = v.numDataBits then some data
  else if (padLoop v.numDataBits 0
      (data ++ List.replicate (v.numBitsToPadToCodeword data.length)
        false)).length = v.numDataBits then
    some (padLoop v.numDataBits 0
      (data ++ List.replicate (v.numBitsToPadToCodeword data.length) false))
  else none

theorem padCodeword_length (i : Nat) :
    (padCodewords.getD (i % 2) []).length = 8 := by
  rcases Nat.mod_two_eq_zero_or_one i with h | h <;> rw [h] <;> rfl

/-- Every version's data capacity is a whole number of codewords. -/
theorem numDataBits_mod8 (v : qrCodeVersion) : v.numDataBits % 8 = 0 := by
  unfold qrCodeVersion.numDataBits
  have haux : ∀ (bl : List block) (acc : Nat), acc % 8 = 0 →
      (bl.foldl (fun acc b => acc + 8 * b.numBlocks * b.numDataCodewords) acc)
        % 8 = 0 := by
    intro bl
    induction bl with
    | nil => intro acc h; exact h
    | cons b rest ih =>
      intro acc h
      rw [List.foldl_cons]
      exact ih _ (by rw [Nat.mul_assoc]; omega)
  exact haux v.block 0 rfl

theorem padLoop_length (cap : Nat) :
    ∀ n i (data : List Bool), cap - data.length = n →
      data.length ≤ cap → data.length % 8 = cap % 8 →
      (padLoop cap i data).length = cap := by
  intro n
  induction n using Nat.strong_induction_on with
  | _ n ih =>
    intro i data hn hle hmod
    unfold padLoop
    by_cases hg : 8 ≤ cap - data.length
    · rw [if_pos hg]
      have hlen8 : (data ++ padCodewords.getD (i % 2) []).length
          = data.length + 8 := by
        rw [List.length_append, padCodeword_length]
      refine ih (cap - (data.length + 8)) (by omega) (1 - i) _ ?_ ?_ ?_
      · rw [hlen8]
      · rw [hlen8]; omega
      · rw [hlen8]; omega
    · rw [if_neg hg]
      omega

/-- C10: for every version record and every data bitstream that fits the
version's capacity (as `chooseQRCodeVersion` guarantees for every content
and level accepted by `New`), the terminator is min(4, free bits), the
capacity `numDataBits` is a multiple of 8, and after `addTerminatorBits`
and `addPadding` the stream is exactly `numDataBits` bits long — the
"BUG: got len" panic branch of `addPadding` (embedded as `none`) is not
taken. -/
theorem addPadding_spec (v : qrCodeVersion) (data : List Bool)
    (hle : data.length ≤ v.numDataBits) :
    v.numDataBits % 8 = 0 ∧
    v.numTerminatorBitsRequired data.length
      = min 4 (v.numDataBits - data.length) ∧
    ∃ padded : List Bool,
      addPadding v (addTerminatorBits v data) = some padded ∧
      padded.length = v.numDataBits := by
  have hmod8 := numDataBits_mod8 v
  have hterm : v.numTerminatorBitsRequired data.length
      = min 4 (v.numDataBits - data.length) := by
    unfold qrCodeVersion.numTerminatorBitsRequired
    split <;> omega
  refine ⟨hmod8, hterm, ?_⟩
  have htlen : (addTerminatorBits v data).length
      = data.length + v.numTerminatorBitsRequired data.length := by
    unfold addTerminatorBits
    rw [List.length_append, List.length_replicate]
  have htle : (addTerminatorBits v data).length ≤ v.numDataBits := by
    rw [htlen, hterm]
    omega
  unfold addPadding
  by_cases hfull : (addTerminatorBits v data).length = v.numDataBits
  · rw [if_pos hfull]
    exact ⟨_, rfl, hfull⟩
  · rw [if_neg hfull]
    have hpadlen : ((addTerminatorBits v data) ++
        List.replicate (v.numBitsToPadToCodeword
          (addTerminatorBits v data).length) false).length
        = (addTerminatorBits v data).length +
          (8 - (addTerminatorBits v data).length % 8) % 8 := by
      unfold qrCodeVersion.numBitsToPadToCodeword
      rw [if_neg hfull, List.length_append, List.length_replicate]
    have hdone := padLoop_length v.numDataBits
      (v.numDataBits - ((addTerminatorBits v data) ++
        List.replicate (v.numBitsToPadToCodeword
          (addTerminatorBits v data).length) false).length)
      0
      ((addTerminatorBits v data) ++
        List.replicate (v.numBitsToPadToCodeword
          (addTerminatorBits v data).length) false)
      rfl (by rw [hpadlen]; omega) (by rw [hpadlen]; omega)
    rw [if_pos hdone]
    exact ⟨_, rfl, hdone⟩

/-- Witness for C10 at version 1 Low with a 10-bit stream. -/
theorem addPadding_spec_witness :
    (List.replicate 10 false).length
      ≤ (⟨1, .Low, [⟨1, 26, 19⟩], 0⟩ : qrCodeVersion).numDataBits ∧
    ((⟨1, .Low, [⟨1, 26, 19⟩], 0⟩ : qrCodeVersion).numDataBits % 8 = 0 ∧
    (⟨1, .Low, [⟨1, 26, 19⟩], 0⟩ : qrCodeVersion).numTerminatorBitsRequired
        (List.replicate 10 false).length
      = min 4 ((⟨1, .Low, [⟨1, 26, 19⟩], 0⟩ : qrCodeVersion).numDataBits
          - (List.replicate 10 false).length) ∧
    ∃ padded : List Bool,
      addPadding ⟨1, .Low, [⟨1, 26, 19⟩], 0⟩
        (addTerminatorBits ⟨1, .Low, [⟨1, 26, 19⟩], 0⟩
          (List.replicate 10 false)) = some padded ∧
      padded.length
        = (⟨1, .Low, [⟨1, 26, 19⟩], 0⟩ : qrCodeVersion).numDataBits) :=
  ⟨by decide,
   addPadding_spec ⟨1, .Low, [⟨1, 26, 19⟩], 0⟩ (List.replicate 10 false)
     (by decide)⟩

/-! ## The symbol (module grid) and its penalty scores

Source: symbol.go, embedded in src/qrcode/version_test.go after the
file separator (its lines 144-419). -/

/-- source: `symbol` (symbol.go lines 161-179): module values and
used-flags are fullSize × fullSize grids indexed [y][x]; coordinates used
by `get`/`set`/`empty` are offset by the quiet-zone width. -/
structure symbol where
  module : List (List Bool)
  isUsed : List (List Bool)
  fullSize : Nat
  symbolSize : Nat
  quietZoneSize : Nat
deriving DecidableEq

/-- source: `newSymbol` (symbol.go lines 183-198). -/
def newSymbol (symbolSize quietZoneSize : Nat) : symbol :=
  ⟨List.replicate (symbolSize + 2 * quietZoneSize)
      (List.replicate (symbolSize + 2 * quietZoneSize) false),
   List.replicate (symbolSize + 2 * quietZoneSize)
      (List.replicate (symbolSize + 2 * quietZoneSize) false),
   symbolSize + 2 * quietZoneSize, symbolSize, quietZoneSize⟩

/-- source: `symbol.get` (symbol.go lines 201-203). -/
def symbol.get (m : symbol) (x y : Nat) : Bool :=
  (m.module.getD (y + m.quietZoneSize) []).getD (x + m.quietZoneSize) false

/-- source: `symbol.empty` (symbol.go lines 207-209). -/
def symbol.empty (m : symbol) (x y : Nat) : Bool :=
  !((m.isUsed.getD (y + m.quietZoneSize) []).getD (x + m.quietZoneSize) false)

/-- source: `symbol.set` (symbol.go lines 228-231): writes the module
value and marks the module used. -/
def symbol.set (m : symbol) (x y : Nat) (v : Bool) : symbol :=
  { m with
    module := m.module.set (y + m.quietZoneSize)
      ((m.module.getD (y + m.quietZoneSize) []).set (x + m.quietZoneSize) v),
    isUsed := m.isUsed.set (y + m.quietZoneSize)
      ((m.isUsed.getD (y + m.quietZoneSize) []).set (x + m.quietZoneSize) true) }

/-- source: `symbol.set2dPattern` (symbol.go lines 234-240). -/
def symbol.set2dPattern (m : symbol) (x y : Nat) (v : List (List Bool)) : symbol :=
  v.enum.foldl (fun acc jrow =>
    jrow.2.enum.foldl (fun acc2 ival =>
      acc2.set (x + ival.1) (y + jrow.1) ival.2) acc) m

/-- source: `symbol.numEmptyModules` (symbol.go lines 215-225). -/
def symbol.numEmptyModules (m : symbol) : Nat :=
  (List.range m.symbolSize).foldl (fun acc y =>
    (List.range m.symbolSize).foldl (fun acc2 x =>
      if !((m.isUsed.getD (y + m.quietZoneSize) []).getD
          (x + m.quietZoneSize) false) then acc2 + 1 else acc2) acc) 0

/-- The column of module values at abscissa `x` (the values scanned by
the first pass of `penalty1`). -/
def symbol.column (m : symbol) (x : Nat) : List Bool :=
  (List.range m.symbolSize).map (fun y => m.get x y)

/-- The row of module values at ordinate `y` (the values scanned by the
second pass of `penalty1`). -/
def symbol.row (m : symbol) (y : Nat) : List Bool :=
  (List.range m.symbolSize).map (fun x => m.get x y)

/-- Penalty weights (symbol.go lines 253-258, ISO/IEC 18004:2006). -/
def penaltyWeight1 : Nat := 3

/-- Penalty weight of rule 2. -/
def penaltyWeight2 : Nat := 3

/-- Penalty weight of rule 3. -/
def penaltyWeight3 : Nat := 40

/-- Penalty weight of rule 4. -/
def penaltyWeight4 : Nat := 10

/-- The same-colour-run state machine of `penalty1` (symbol.go lines
274-292 / 295-313): state (lastValue, count), adding
`penaltyWeight1 + 1` when the count reaches 6 and 1 per module beyond. -/
def penalty1Scan : Bool → Nat → List Bool → Nat
  | _, _, [] => 0
  | last, count, v :: rest =>
    if v ≠ last then penalty1Scan v 1 rest
    else
      (if count + 1 = 6 then penaltyWeight1 + 1
       else if 6 < count + 1 then 1 else 0) + penalty1Scan last (count + 1) rest

/-- The per-line penalty of rule 1: the scan starts on the first module
with count 1. -/
def penalty1Line : List Bool → Nat
  | [] => 0
  | v :: rest => penalty1Scan v 1 rest

/-- source: `symbol.penalty1` (symbol.go lines 271-317): the run scan
over every column, then over every row. -/
def symbol.penalty1 (m : symbol) : Nat :=
  (List.range m.symbolSize).foldl
    (fun acc x => acc + penalty1Line (m.column x)) 0 +
  (List.range m.symbolSize).foldl
    (fun acc y => acc + penalty1Line (m.row y)) 0

/-- source: `symbol.penalty2` (symbol.go lines 322-339): 2×2 blocks of
one colour. -/
def symbol.penalty2 (m : symbol) : Nat :=
  penaltyWeight2 *
    ((List.range' 1 (m.symbolSize - 1)).foldl (fun acc y =>
      (List.range' 1 (m.symbolSize - 1)).foldl (fun acc2 x =>
        if m.get x y = m.get (x - 1) y ∧ m.get x y = m.get x (y - 1) ∧
            m.get x y = m.get (x - 1) (y - 1)
        then acc2 + 1 else acc2) acc) 0)

/-- The sliding-bit-buffer scan of `penalty3` (symbol.go lines 349-370 /
373-395).  The Go buffer is an int16 read through masks 0x7ff and 0x7f;
a natural-number buffer agrees on those masked reads. -/
def penalty3Line (vals : List Bool) : Nat :=
  (vals.enum.foldl (fun (st : Nat × Nat) iv =>
    let buffer := st.1 * 2 + (if iv.2 then 1 else 0)
    if buffer % 2048 = 0x05d ∨ buffer % 2048 = 0x5d0 then
      (0xFF, st.2 + penaltyWeight3)
    else if iv.1 = vals.length - 1 ∧ buffer % 128 = 0x5d then
      (0xFF, st.2 + penaltyWeight3)
    else (buffer, st.2)) (0, 0)).2

/-- source: `symbol.penalty3` (symbol.go lines 346-398): the 1:1:3:1:1
pattern scan over every row, then over every column. -/
def symbol.penalty3 (m : symbol) : Nat :=
  (List.range m.symbolSize).foldl
    (fun acc y => acc + penalty3Line (m.row y)) 0 +
  (List.range m.symbolSize).foldl
    (fun acc x => acc + penalty3Line (m.column x)) 0

/-- The dark-module count of `penalty4` (symbol.go lines 405-411). -/
def symbol.numDarkModules (m : symbol) : Nat :=
  (List.range m.symbolSize).foldl (fun acc x =>
    (List.range m.symbolSize).foldl (fun acc2 y =>
      if m.get x y then acc2 + 1 else acc2) acc) 0

/-- source: `symbol.penalty4` (symbol.go lines 401-419): deviation of the
dark-module count from 50%, in steps of numModules/20.  (For grids of
fewer than 20 modules the Go code would divide by zero; real symbols are
at least 21×21.) -/
def symbol.penalty4 (m : symbol) : Nat :=
  penaltyWeight4 *
    ((if m.numDarkModules ≤ m.symbolSize * m.symbolSize / 2 then
        m.symbolSize * m.symbolSize / 2 - m.numDarkModules
      else m.numDarkModules - m.symbolSize * m.symbolSize / 2) /
     (m.symbolSize * m.symbolSize / 20))

/-- source: `symbol.penaltyScore` (symbol.go lines 262-264): the sum of
the four penalty rules. -/
def symbol.penaltyScore (m : symbol) : Nat :=
  m.penalty1 + m.penalty2 + m.penalty3 + m.penalty4

/-! ### Run decomposition of penalty rule 1 (claim C2) -/

/-- The maximal same-colour runs of a line, as their lengths: helper
carrying the current colour and run length. -/
def runsGo : Bool → Nat → List Bool → List Nat
  | _, count, [] => [count]
  | last, count, v :: rest =>
    if v = last then runsGo last (count + 1) rest
    else count :: runsGo v 1 rest

/-- The lengths of the maximal same-colour runs of a line, in order. -/
def runLengths : List Bool → List Nat
  | [] => []
  | v :: rest => runsGo v 1 rest

/-- The rule-1 cost of one maximal run of `n` same-colour modules as the
code actually assigns it: zero for n ≤ 5 (including exactly 5), and
`penaltyWeight1 + (n - 5)` for n ≥ 6, increasing by one per extra
module. -/
def runCost (n : Nat) : Nat :=
  if 6 ≤ n then penaltyWeight1 + (n - 5) else 0

theorem penalty1Scan_runs : ∀ (rest : List Bool) (last : Bool) (count : Nat),
    1 ≤ count →
    penalty1Scan last count rest + runCost count
      = ((runsGo last count rest).map runCost).sum := by
  intro rest
  induction rest with
  | nil =>
    intro last count h1
    unfold penalty1Scan runsGo
    simp
  | cons v rest ih =>
    intro last count h1
    unfold penalty1Scan runsGo
    by_cases hv : v = last
    · rw [if_neg (by simpa using hv), if_pos hv]
      have hstep := ih last (count + 1) (by omega)
      have hinc : (if count + 1 = 6 then penaltyWeight1 + 1
          else if 6 < count + 1 then 1 else 0) + runCost count
          = runCost (count + 1) := by
        unfold runCost penaltyWeight1
        by_cases h6 : count + 1 = 6
        · rw [if_pos h6, if_neg (by omega), if_pos (by omega)]
          omega
        · rw [if_neg h6]
          by_cases h7 : 6 < count + 1
          · rw [if_pos h7, if_pos (by omega), if_pos (by omega)]
            omega
          · rw [if_neg h7, if_neg (by omega), if_neg (by omega)]
      omega
    · rw [if_pos (by simpa using hv), if_neg hv]
      have hstep := ih v 1 (by omega)
      rw [List.map_cons, List.sum_cons]
      have h10 : runCost 1 = 0 := by decide
      omega

/-- Rule 1 charges exactly the per-run costs: the per-line scan equals
the sum of `runCost` over the maximal runs of the line. -/
theorem penalty1Line_runs (l : List Bool) :
    penalty1Line l = ((runLengths l).map runCost).sum := by
  cases l with
  | nil => rfl
  | cons v rest =>
    show penalty1Scan v 1 rest = ((runsGo v 1 rest).map runCost).sum
    have h := penalty1Scan_runs rest v 1 (by omega)
    have h10 : runCost 1 = 0 := by decide
    omega

theorem foldl_add_eq_sum (f : Nat → Nat) (l : List Nat) :
    ∀ acc, l.foldl (fun a x => a + f x) acc = acc + (l.map f).sum := by
  induction l with
  | nil => intro acc; simp
  | cons x xs ih =>
    intro acc
    rw [List.foldl_cons, ih, List.map_cons, List.sum_cons]
    omega

/-- C2 (amended): penalty rule 1 decomposes into per-run costs over every
column and row: each maximal run of n same-colour modules costs
`penaltyWeight1 + (n - 5)` when n ≥ 6 and nothing when n ≤ 5 — in
particular a run of exactly 5 costs nothing, and the cost increases by
one per extra module beyond the sixth. -/
theorem penalty1_run_decomposition (m : symbol) :
    m.penalty1 =
      ((List.range m.symbolSize).map
        (fun x => ((runLengths (m.column x)).map runCost).sum)).sum +
      ((List.range m.symbolSize).map
        (fun y => ((runLengths (m.row y)).map runCost).sum)).sum := by
  unfold symbol.penalty1
  have h1 : ∀ (g : Nat → List Bool) (l : List Nat),
      l.foldl (fun acc i => acc + penalty1Line (g i)) 0
        = (l.map (fun i => ((runLengths (g i)).map runCost).sum)).sum := by
    intro g l
    have h2 : (fun (acc : Nat) (i : Nat) => acc + penalty1Line (g i))
        = fun acc i => acc + (fun i => ((runLengths (g i)).map runCost).sum) i := by
      funext acc i
      rw [penalty1Line_runs]
    rw [h2, foldl_add_eq_sum (fun i => ((runLengths (g i)).map runCost).sum) l 0]
    omega
  rw [h1 (fun x => m.column x) (List.range m.symbolSize),
    h1 (fun y => m.row y) (List.range m.symbolSize)]

/-- A 21×21 symbol whose first row starts with a run of exactly five dark
modules, all other runs having length at most two. -/
def cexSymbol : symbol :=
  ⟨[   [true, true, true, true, true, false, true, false, true, false, true, false, true, false, true, false, true, false, true, false, true],
   [false, true, false, true, false, true, false, true, false, true, false, true, false, true, false, true, false, true, false, true, false],
   [true, false, true, false, true, false, true, false, true, false, true, false, true, false, true, false, true, false, true, false, true],
   [false, true, false, true, false, true, false, true, false, true, false, true, false, true, false, true, false, true, false, true, false],
   [true, false, true, false, true, false, true, false, true, false, true, false, true, false, true, false, true, false, true, false, true],
   [false, true, false, true, false, true, false, true, false, true, false, true, false, true, false, true, false, true, false, true, false],
   [true, false, true, false, true, false, true, false, true, false, true, false, true, false, true, false, true, false, true, false, true],
   [false, true, false, true, false, true, false, true, false, true, false, true, false, true, false, true, false, true, false, true, false],
   [true, false, true, false, true, false, true, false, true, false, true, false, true, false, true, false, true, false, true, false, true],
   [false, true, false, true, false, true, false, true, false, true, false, true, false, true, false, true, false, true, false, true, false],
   [true, false, true, false, true, false, true, false, true, false, true, false, true, false, true, false, true, false, true, false, true],
   [false, true, false, true, false, true, false, true, false, true, false, true, false, true, false, true, false, true, false, true, false],
   [true, false, true, false, true, false, true, false, true, false, true, false, true, false, true, false, true, false, true, false, true],
   [false, true, false, true, false, true, false, true, false, true, false, true, false, true, false, true, false, true, false, true, false],
   [true, false, true, false, true, false, true, false, true, false, true, false, true, false, true, false, true, false, true, false, true],
   [false, true, false, true, false, true, false, true, false, true, false, true, false, true, false, true, false, true, false, true, false],
   [true, false, true, false, true, false, true, false, true, false, true, false, true, false, true, false, true, false, true, false, true],
   [false, true, false, true, false, true, false, true, false, true, false, true, false, true, false, true, false, true, false, true, false],
   [true, false, true, false, true, false, true, false, true, false, true, false, true, false, true, false, true, false, true, false, true],
   [false, true, false, true, false, true, false, true, false, true, false, true, false, true, false, true, false, true, false, true, false],
   [true, false, true, false, true, false, true, false, true, false, true, false, true, false, true, false, true, false, true, false, true]],
   List.replicate 21 (List.replicate 21 true),
   21, 21, 0⟩

/-- C2 counterexample: the claim says rule 1 assigns a positive cost to
every run of 5 or more same-colour modules, but `cexSymbol` contains a
horizontal run of exactly five dark modules (row 0, columns 0-4, bounded
by a light module at column 5) and its rule-1 penalty is zero. -/
theorem penalty1_five_run_zero :
    (cexSymbol.get 0 0 = true ∧ cexSymbol.get 1 0 = true ∧
     cexSymbol.get 2 0 = true ∧ cexSymbol.get 3 0 = true ∧
     cexSymbol.get 4 0 = true ∧ cexSymbol.get 5 0 = false) ∧
    cexSymbol.penalty1 = 0 := by decide

/-! ## Format and version information

Source: version.go lines 246-397, plus the bitset `AppendUint32`
accessor modelled from the spec and the bitset tests. -/

/-- Modelled from the spec / bitset tests (`TestAppendUint32`):
`AppendUint32 value numBits` appends the low `numBits` bits of `value`,
most significant first. -/
def appendUint32 (b : List Bool) (value numBits : Nat) : List Bool :=
  b ++ (List.range numBits).map (fun k => value.testBit (numBits - 1 - k))

/-- source: `formatBitSequence` (version.go lines 262-298): the
(regular, micro) 15-bit Format Information values indexed by the 5 data
bits. -/
def formatBitSequence : List (Nat × Nat) := [
  (0x5412, 0x4445),
  (0x5125, 0x4172),
  (0x5e7c, 0x4e2b),
  (0x5b4b, 0x4b1c),
  (0x45f9, 0x55ae),
  (0x40ce, 0x5099),
  (0x4f97, 0x5fc0),
  (0x4aa0, 0x5af7),
  (0x77c4, 0x6793),
  (0x72f3, 0x62a4),
  (0x7daa, 0x6dfd),
  (0x789d, 0x68ca),
  (0x662f, 0x7678),
  (0x6318, 0x734f),
  (0x6c41, 0x7c16),
  (0x6976, 0x7921),
  (0x1689, 0x06de),
  (0x13be, 0x03e9),
  (0x1ce7, 0x0cb0),
  (0x19d0, 0x0987),
  (0x0762, 0x1735),
  (0x0255, 0x1202),
  (0x0d0c, 0x1d5b),
  (0x083b, 0x186c),
  (0x355f, 0x2508),
  (0x3068, 0x203f),
  (0x3f31, 0x2f66),
  (0x3a06, 0x2a51),
  (0x24b4, 0x34e3),
  (0x2183, 0x31d4),
  (0x2eda, 0x3e8d),
  (0x2bed, 0x3bba)]

/-- source: `versionBitSequence` (version.go lines 308-350): the 18-bit
Version Information values indexed by version number. -/
def versionBitSequence : List Nat := [
  0x00000, 0x00000, 0x00000, 0x00000, 0x00000, 0x00000, 0x00000, 0x07c94, 0x085bc, 0x09a99, 0x0a4d3, 0x0bbf6, 0x0c762, 0x0d847, 0x0e60d, 0x0f928, 0x10b78, 0x1145d, 0x12a17, 0x13532, 0x149a6, 0x15683, 0x168c9, 0x177ec, 0x18ec4, 0x191e1, 0x1afab, 0x1b08e, 0x1cc1a, 0x1d33f, 0x1ed75, 0x1f250, 0x209d5, 0x216f0, 0x228ba, 0x2379f, 0x24b0b, 0x2542e, 0x26a64, 0x27541, 0x28c69]

/-- source: `qrCodeVersion.formatInfo` (version.go lines 360-383): the
15-bit Format Information for the given mask pattern.  Panics in Go for
a mask pattern outside 0-7; embedded as `none`. -/
def qrCodeVersion.formatInfo (v : qrCodeVersion) (maskPattern : Nat) :
    Option (List Bool) :=
  if 7 < maskPattern then none
  else
    some (appendUint32 []
      ((formatBitSequence.getD
        ((match v.level with
          | RecoveryLevel.Low => 0x08
          | RecoveryLevel.Medium => 0x00
          | RecoveryLevel.High => 0x18
          | RecoveryLevel.Highest => 0x10) |||
          (maskPattern &&& 0x7)) (0, 0)).1)
      15)

/-- source: `qrCodeVersion.versionInfo` (version.go lines 389-397): the
18-bit Version Information, or `none` (Go `nil`) below version 7. -/
def qrCodeVersion.versionInfo (v : qrCodeVersion) : Option (List Bool) :=
  if v.version < 7 then none
  else some (appendUint32 [] (versionBitSequence.getD v.version 0) 18)

/-- The model reproduces the `TestFormatInfo` vectors
(src/qrcode/version_test.go lines 31-58). -/
theorem formatInfo_matches_tests :
    (⟨1, .Low, [⟨1, 26, 19⟩], 0⟩ : qrCodeVersion).formatInfo 1
      = some (appendUint32 [] 0x72f3 15) ∧
    (⟨1, .Medium, [⟨1, 26, 16⟩], 0⟩ : qrCodeVersion).formatInfo 2
      = some (appendUint32 [] 0x5e7c 15) ∧
    (⟨1, .High, [⟨1, 26, 13⟩], 0⟩ : qrCodeVersion).formatInfo 3
      = some (appendUint32 [] 0x3a06 15) ∧
    (⟨1, .Highest, [⟨1, 26, 9⟩], 0⟩ : qrCodeVersion).formatInfo 4
      = some (appendUint32 [] 0x0762 15) := by decide

/-- The model reproduces the `TestVersionInfo` vectors
(src/qrcode/version_test.go lines 60-83). -/
theorem versionInfo_matches_tests :
    (⟨7, .Low, [⟨2, 98, 78⟩], 0⟩ : qrCodeVersion).versionInfo
      = some (appendUint32 [] 0x007c94 18) ∧
    (⟨40, .Low, [⟨19, 148, 118⟩, ⟨6, 149, 119⟩], 0⟩ : qrCodeVersion).versionInfo
      = some (appendUint32 [] 0x028c69 18) := by decide

/-! ## The regular symbol builder

Source: regular_symbol.go, embedded in src/qrcode/qrcode_test.go after
the second file separator (its lines 286-582). -/

/-- source: `alignmentPatternCenter` (regular_symbol.go, embedded in
qrcode_test.go lines 301-343). -/
def alignmentPatternCenter : List (List Nat) := [
  [],
  [],
  [6, 18],
  [6, 22],
  [6, 26],
  [6, 30],
  [6, 34],
  [6, 22, 38],
  [6, 24, 42],
  [6, 26, 46],
  [6, 28, 50],
  [6, 30, 54],
  [6, 32, 58],
  [6, 34, 62],
  [6, 26, 46, 66],
  [6, 26, 48, 70],
  [6, 26, 50, 74],
  [6, 30, 54, 78],
  [6, 30, 56, 82],
  [6, 30, 58, 86],
  [6, 34, 62, 90],
  [6, 28, 50, 72, 94],
  [6, 26, 50, 74, 98],
  [6, 30, 54, 78, 102],
  [6, 28, 54, 80, 106],
  [6, 32, 58, 84, 110],
  [6, 30, 58, 86, 114],
  [6, 34, 62, 90, 118],
  [6, 26, 50, 74, 98, 122],
  [6, 30, 54, 78, 102, 126],
  [6, 26, 52, 78, 104, 130],
  [6, 30, 56, 82, 108, 134],
  [6, 34, 60, 86, 112, 138],
  [6, 30, 58, 86, 114, 142],
  [6, 34, 62, 90, 118, 146],
  [6, 30, 54, 78, 102, 126, 150],
  [6, 24, 50, 76, 102, 128, 154],
  [6, 28, 54, 80, 106, 132, 158],
  [6, 32, 58, 84, 110, 136, 162],
  [6, 26, 54, 82, 110, 138, 166],
  [6, 30, 58, 86, 114, 142, 170]]

/-- source: `finderPattern` (regular_symbol.go). -/
def finderPattern : List (List Bool) := [
  [true, true, true, true, true, true, true],
  [true, false, false, false, false, false, true],
  [true, false, true, true, true, false, true],
  [true, false, true, true, true, false, true],
  [true, false, true, true, true, false, true],
  [true, false, false, false, false, false, true],
  [true, true, true, true, true, true, true]]

/-- source: `finderPatternSize` (regular_symbol.go). -/
def finderPatternSize : Nat := 7

/-- source: `finderPatternHorizontalBorder` (regular_symbol.go). -/
def finderPatternHorizontalBorder : List (List Bool) :=
  [[false, false, false, false, false, false, false, false]]

/-- source: `finderPatternVerticalBorder` (regular_symbol.go). -/
def finderPatternVerticalBorder : List (List Bool) :=
  [[false], [false], [false], [false], [false], [false], [false], [false]]

/-- source: `alignmentPattern` (regular_symbol.go). -/
def alignmentPattern : List (List Bool) := [
  [true, true, true, true, true],
  [true, false, false, false, true],
  [true, false, true, false, true],
  [true, false, false, false, true],
  [true, true, true, true, true]]

/-- source: `regularSymbol.addFinderPatterns` (regular_symbol.go lines
407-427). -/
def addFinderPatterns (symbolSize : Nat) (s : symbol) : symbol :=
  ((((((((s.set2dPattern 0 0 finderPattern).set2dPattern
    0 finderPatternSize finderPatternHorizontalBorder).set2dPattern
    finderPatternSize 0 finderPatternVerticalBorder).set2dPattern
    (symbolSize - finderPatternSize) 0 finderPattern).set2dPattern
    (symbolSize - finderPatternSize - 1) finderPatternSize
      finderPatternHorizontalBorder).set2dPattern
    (symbolSize - finderPatternSize - 1) 0
      finderPatternVerticalBorder).set2dPattern
    0 (symbolSize - finderPatternSize) finderPattern).set2dPattern
    0 (symbolSize - finderPatternSize - 1)
      finderPatternHorizontalBorder).set2dPattern
    finderPatternSize (symbolSize - finderPatternSize - 1)
      finderPatternVerticalBorder

/-- source: `regularSymbol.addAlignmentPatterns` (regular_symbol.go lines
429-439): place a 5×5 alignment pattern at every pair of centre
coordinates whose centre module is still empty. -/
def addAlignmentPatterns (version : Nat) (s : symbol) : symbol :=
  (alignmentPatternCenter.getD version []).foldl (fun acc x =>
    (alignmentPatternCenter.getD version []).foldl (fun acc2 y =>
      if !(acc2.empty x y) then acc2
      else acc2.set2dPattern (x - 2) (y - 2) alignmentPattern) acc) s

/-- source: `regularSymbol.addTimingPatterns` (regular_symbol.go lines
441-450): alternating modules along row 6 and column 6, between the
finder patterns. -/
def addTimingPatterns (symbolSize : Nat) (s : symbol) : symbol :=
  (((List.range' (finderPatternSize + 1)
      (symbolSize - finderPatternSize - (finderPatternSize + 1))).foldl
    (fun (st : symbol × Bool) i =>
      (((st.1.set i (finderPatternSize - 1) st.2).set
        (finderPatternSize - 1) i st.2), !st.2)) (s, true))).1

/-- source: `regularSymbol.addFormatInfo` (regular_symbol.go lines
452-485); `none` when `formatInfo` panics (mask outside 0-7). -/
def addFormatInfo (symbolSize : Nat) (v : qrCodeVersion) (mask : Nat)
    (s : symbol) : Option symbol :=
  match v.formatInfo mask with
  | none => none
  | some f =>
    let l := 15 - 1
    let s1 := (List.range 8).foldl (fun acc i =>
      acc.set (symbolSize - i - 1) (finderPatternSize + 1)
        (f.getD (l - i) false)) s
    let s2 := (List.range 6).foldl (fun acc i =>
      acc.set (finderPatternSize + 1) i (f.getD (l - i) false)) s1
    let s3 := ((s2.set (finderPatternSize + 1) finderPatternSize
        (f.getD (l - 6) false)).set
      (finderPatternSize + 1) (finderPatternSize + 1)
        (f.getD (l - 7) false)).set
      finderPatternSize (finderPatternSize + 1) (f.getD (l - 8) false)
    let s4 := (List.range' 9 6).foldl (fun acc i =>
      acc.set (14 - i) (finderPatternSize + 1) (f.getD (l - i) false)) s3
    let s5 := (List.range' 8 7).foldl (fun acc i =>
      acc.set (finderPatternSize + 1)
        (symbolSize - finderPatternSize + i - 8) (f.getD (l - i) false)) s4
    some (s5.set (finderPatternSize + 1)
      (symbolSize - finderPatternSize - 1) true)

/-- source: `regularSymbol.addVersionInfo` (regular_symbol.go lines
487-504). -/
def addVersionInfo (symbolSize : Nat) (v : qrCodeVersion) (s : symbol) :
    symbol :=
  match v.versionInfo with
  | none => s
  | some vi =>
    let l := 18 - 1
    (List.range vi.length).foldl (fun acc i =>
      (acc.set (i / 3) (symbolSize - finderPatternSize - 4 + i % 3)
        (vi.getD (l - i) false)).set
        (symbolSize - finderPatternSize - 4 + i % 3) (i / 3)
        (vi.getD (l - i) false)) s

/-- The XOR mask formulas of `regularSymbol.addData` (regular_symbol.go
lines 521-539), as a function of the written column `x + xOffset` and the
row `y` (every formula reads `x` only through `x + xOffset`).  A mask id
outside 0-7 leaves the Go `mask` variable false. -/
def maskBit (mask : Nat) (xpx y : Nat) : Bool :=
  match mask with
  | 0 => (y + xpx) % 2 = 0
  | 1 => y % 2 = 0
  | 2 => xpx % 3 = 0
  | 3 => (y + xpx) % 3 = 0
  | 4 => (y / 2 + xpx / 3) % 2 = 0
  | 5 => (y * xpx) % 2 + (y * xpx) % 3 = 0
  | 6 => ((y * xpx) % 2 + ((y * xpx) % 3)) % 2 = 0
  | 7 => ((y + xpx) % 2 + ((y * xpx) % 3)) % 2 = 0
  | _ => false

/-- The traversal state of `regularSymbol.addData`: the column pair
offset, the vertical direction (`true` = up), and the signed pair/row
coordinates (Go ints: `x` crosses below zero exactly when the symbol is
exhausted). -/
structure addDataState where
  xOffset : Nat
  up : Bool
  x : Int
  y : Int
deriving DecidableEq

/-- One unconditional position advance of the "find next free bit" loop
of `addData` (regular_symbol.go lines 549-575): toggle the pair offset,
step the row (flipping direction and moving two columns left at the
edges), and skip the vertical timing column `x = 5 + 1`. -/
def advancePos (symbolSize : Nat) (st : addDataState) : addDataState :=
  let st1 :=
    if st.xOffset = 1 then { st with xOffset := 0 }
    else
      if st.up then
        if 0 < st.y then { st with xOffset := 1, y := st.y - 1 }
        else { st with xOffset := 1, up := false, x := st.x - 2 }
      else
        if st.y < (symbolSize : Int) - 1 then { st with xOffset := 1, y := st.y + 1 }
        else { st with xOffset := 1, up := true, x := st.x - 2 }
  if st1.x = 5 then { st1 with x := st1.x - 1 } else st1

/-- The "find next free bit" search loop of `addData` (regular_symbol.go
lines 548-580), with explicit fuel; `none` models the Go behaviours that
never yield a position (an unbounded search, or indexing at a negative
coordinate, which panics in Go). -/
def searchNext (s : symbol) (symbolSize : Nat) :
    Nat → addDataState → Option addDataState
  | 0, _ => none
  | fuel + 1, st =>
    let st2 := advancePos symbolSize st
    if st2.x + st2.xOffset < 0 ∨ st2.y < 0 then none
    else if s.empty (st2.x + st2.xOffset).toNat st2.y.toNat then some st2
    else searchNext s symbolSize fuel st2

/-- The per-bit loop of `addData` (regular_symbol.go lines 520-581):
write the masked bit at the current position, stop after the last bit,
otherwise search for the next empty module. -/
def addDataGo (mask symbolSize fuel : Nat) :
    symbol → addDataState → List Bool → Option symbol
  | s, _, [] => some s
  | s, st, bit :: rest =>
    if st.x + st.xOffset < 0 ∨ st.y < 0 then none
    else
      let s2 := s.set (st.x + st.xOffset).toNat st.y.toNat
        (maskBit mask (st.x + st.xOffset).toNat st.y.toNat ≠ bit)
      match rest with
      | [] => some s2
      | _ =>
        match searchNext s2 symbolSize fuel st with
        | none => none
        | some st2 => addDataGo mask symbolSize fuel s2 st2 rest

/-- source: `regularSymbol.addData` (regular_symbol.go lines 513-582),
starting at the bottom-right corner moving up.  The search fuel
`2 * symbolSize * symbolSize + 4 * symbolSize + 16` bounds the longest
possible traversal of the module grid. -/
def addData (mask symbolSize : Nat) (s : symbol) (data : List Bool) :
    Option symbol :=
  addDataGo mask symbolSize (2 * symbolSize * symbolSize + 4 * symbolSize + 16)
    s ⟨1, true, (symbolSize : Int) - 2, (symbolSize : Int) - 1⟩ data

/-- source: `buildRegularSymbol` (regular_symbol.go lines 381-405):
structural patterns, meta information, then the masked data; `none` on
the panic paths. -/
def buildRegularSymbol (version : qrCodeVersion) (mask : Nat)
    (data : List Bool) (includeQuietZone : Bool) : Option symbol :=
  match addFormatInfo version.symbolSize version mask
    (addTimingPatterns version.symbolSize
      (addAlignmentPatterns version.version
        (addFinderPatterns version.symbolSize
          (newSymbol version.symbolSize
            (if includeQuietZone then version.quietZoneSize else 0))))) with
  | none => none
  | some s =>
    addData mask version.symbolSize
      (addVersionInfo version.symbolSize version s) data

/-! ## The mask-selection loop of `QRCode.encode`

Source: qrcode.go (src/unnamed/part_017) lines 202-220. -/

/-- One iteration of the mask loop of `QRCode.encode` (part_017 lines
205-220): build the symbol for this mask id, fail on the
`numEmptyModules != 0` panicguard (embedded as `none`), and keep the
symbol when none is held yet or its penalty score is strictly lower. -/
def encodeMaskStep (build : Nat → Option symbol)
    (st : Option (Option symbol × Nat × Nat)) (mask : Nat) :
    Option (Option symbol × Nat × Nat) :=
  match st with
  | none => none
  | some (chosen, chosenMask, penalty) =>
    match build mask with
    | none => none
    | some s =>
      if s.numEmptyModules ≠ 0 then none
      else if chosen = none ∨ s.penaltyScore < penalty then
        some (some s, mask, s.penaltyScore)
      else some (chosen, chosenMask, penalty)

/-- The full mask loop of `QRCode.encode` (part_017 lines 202-220): all 8
mask ids are processed in order, with no early exit; the state starts
with no symbol held and penalty 0. -/
def encodeMaskLoop (build : Nat → Option symbol) :
    Option (Option symbol × Nat × Nat) :=
  (List.range 8).foldl (encodeMaskStep build) (some (none, 0, 0))

theorem encodeMaskStep_eval (build : Nat → Option symbol)
    (chosen : Option symbol) (cm p mask : Nat) (s : symbol)
    (hb : build mask = some s) :
    encodeMaskStep build (some (chosen, cm, p)) mask =
      if s.numEmptyModules ≠ 0 then none
      else if chosen = none ∨ s.penaltyScore < p then
        some (some s, mask, s.penaltyScore)
      else some (chosen, cm, p) := by
  show (match build mask with
    | none => none
    | some s =>
      if s.numEmptyModules ≠ 0 then none
      else if chosen = none ∨ s.penaltyScore < p then
        some (some s, mask, s.penaltyScore)
      else some (chosen, cm, p)) = _
  rw [hb]

theorem encodeMaskLoopGo_spec (build : Nat → Option symbol)
    (hbuild : ∀ k, k < 8 →
      (build k).map symbol.numEmptyModules = some 0) :
    ∀ n, 1 ≤ n → n ≤ 8 →
    ∃ s m, (List.range n).foldl (encodeMaskStep build) (some (none, 0, 0))
        = some (some s, m, s.penaltyScore) ∧
      m < n ∧ build m = some s ∧
      ∀ k, k < n → ∀ sk, build k = some sk →
        s.penaltyScore ≤ sk.penaltyScore := by
  intro n
  induction n with
  | zero => intro h1 _; omega
  | succ n ih =>
    intro _ hle8
    have hbn := hbuild n (by omega)
    obtain ⟨sn, hsn, hempty⟩ : ∃ sn, build n = some sn ∧
        sn.numEmptyModules = 0 := by
      cases hb : build n with
      | none => rw [hb] at hbn; simp at hbn
      | some s =>
        rw [hb] at hbn
        rw [Option.map_some', Option.some_inj] at hbn
        exact ⟨s, rfl, hbn⟩
    rw [List.range_succ, List.foldl_append, List.foldl_cons, List.foldl_nil]
    by_cases hn1 : 1 ≤ n
    · obtain ⟨s, m, hfold, hm, hbm, hmin⟩ := ih hn1 (by omega)
      rw [hfold, encodeMaskStep_eval build _ _ _ n sn hsn,
        if_neg (show ¬sn.numEmptyModules ≠ 0 by omega)]
      by_cases hlt : sn.penaltyScore < s.penaltyScore
      · rw [if_pos (Or.inr hlt)]
        refine ⟨sn, n, rfl, by omega, hsn, ?_⟩
        intro k hk sk hsk
        rcases Nat.lt_succ_iff_lt_or_eq.mp hk with hk | hk
        · exact le_trans (le_of_lt hlt) (hmin k hk sk hsk)
        · subst hk
          rw [hsk] at hsn
          obtain rfl := Option.some.inj hsn
          exact le_refl _
      · rw [if_neg (by
          rintro (hc | hc)
          · exact Option.some_ne_none s hc
          · exact hlt hc)]
        refine ⟨s, m, rfl, by omega, hbm, ?_⟩
        intro k hk sk hsk
        rcases Nat.lt_succ_iff_lt_or_eq.mp hk with hk | hk
        · exact hmin k hk sk hsk
        · subst hk
          rw [hsk] at hsn
          obtain rfl := Option.some.inj hsn
          omega
    · have hn0 : n = 0 := by omega
      subst hn0
      rw [List.range_zero, List.foldl_nil,
        encodeMaskStep_eval build _ _ _ 0 sn hsn,
        if_neg (show ¬sn.numEmptyModules ≠ 0 by omega),
        if_pos (Or.inl rfl)]
      refine ⟨sn, 0, rfl, by omega, hsn, ?_⟩
      intro k hk sk hsk
      have hk0 : k = 0 := by omega
      subst hk0
      rw [hsk] at hsn
      obtain rfl := Option.some.inj hsn
      exact le_refl _

/-- C1: for every version, encoded data stream and border flag (hence for
every content accepted by `New` and every recovery level), the mask loop
of `QRCode.encode` builds and penalty-scores all 8 mask candidates via
`buildRegularSymbol` with no early exit, and — provided each candidate
passes the `numEmptyModules = 0` guard — the symbol it stores is one
whose total penalty score `penaltyScore` (the sum of the four penalty
rules) is minimal over the 8 candidates, together with that mask id and
score. -/
theorem encode_mask_selection (v : qrCodeVersion) (data : List Bool)
    (border : Bool)
    (hbuild : ∀ k, k < 8 →
      (buildRegularSymbol v k data border).map symbol.numEmptyModules
        = some 0) :
    ∃ s m, encodeMaskLoop (fun k => buildRegularSymbol v k data border)
        = some (some s, m, s.penaltyScore) ∧
      m < 8 ∧ buildRegularSymbol v m data border = some s ∧
      ∀ k, k < 8 → ∀ sk, buildRegularSymbol v k data border = some sk →
        s.penaltyScore ≤ sk.penaltyScore :=
  encodeMaskLoopGo_spec (fun k => buildRegularSymbol v k data border)
    hbuild 8 (by omega) (by omega)

/-- Witness for C1: version 1 Low with a full 208-bit zero stream and no
quiet zone; all 8 candidates build with every module used. -/
theorem encode_mask_selection_witness :
    (∀ k, k < 8 →
      (buildRegularSymbol ⟨1, .Low, [⟨1, 26, 19⟩], 0⟩ k
        (List.replicate 208 false) false).map symbol.numEmptyModules
        = some 0) ∧
    (∃ s m, encodeMaskLoop (fun k => buildRegularSymbol
        ⟨1, .Low, [⟨1, 26, 19⟩], 0⟩ k (List.replicate 208 false) false)
        = some (some s, m, s.penaltyScore) ∧
      m < 8 ∧
      buildRegularSymbol ⟨1, .Low, [⟨1, 26, 19⟩], 0⟩ m
        (List.replicate 208 false) false = some s ∧
      ∀ k, k < 8 → ∀ sk,
        buildRegularSymbol ⟨1, .Low, [⟨1, 26, 19⟩], 0⟩ k
          (List.replicate 208 false) false = some sk →
        s.penaltyScore ≤ sk.penaltyScore) :=
  by
  have h : ∀ k, k < 8 →
      (buildRegularSymbol ⟨1, .Low, [⟨1, 26, 19⟩], 0⟩ k
        (List.replicate 208 false) false).map symbol.numEmptyModules
      = some 0 := by decide
  exact ⟨h, encode_mask_selection ⟨1, .Low, [⟨1, 26, 19⟩], 0⟩
    (List.replicate 208 false) false h⟩

/-! ## The `New` facade and the numeric capacity boundary

Source: `New` (qrcode.go, src/unnamed/part_017 lines 63-106). The data
encoder and classifier source files are absent from src/; the numeric
mode serialization is modelled from the spec (mode indicator 0001, a
count field whose width depends on the bracket, groups of 3 digits into
10 bits with 2 leftover digits into 7 bits and 1 into 4 bits), with the
classifier restricted to all-digit content (the only content the
capacity-boundary property exercises). -/

/-- A byte is a decimal digit (ASCII 48-57). -/
def isDigit (b : Nat) : Bool := decide (48 ≤ b ∧ b ≤ 57)

/-- Modelled from the spec: the numeric payload — groups of 3 digits
become 10 bits, 2 leftover digits become 7 bits, 1 leftover digit
becomes 4 bits, each group most significant bit first. -/
def numericPayload : List Nat → List Bool
  | d1 :: d2 :: d3 :: rest =>
      appendUint32 [] ((d1 - 48) * 100 + (d2 - 48) * 10 + (d3 - 48)) 10
        ++ numericPayload rest
  | [d1, d2] => appendUint32 [] ((d1 - 48) * 10 + (d2 - 48)) 7
  | [d1] => appendUint32 [] (d1 - 48) 4
  | [] => []

/-- Bits contributed by the leftover digits after the 3-digit groups:
none for 0 leftover digits, 4 for 1, 7 for 2. -/
def numericTailBits : Nat → Nat
  | 0 => 0
  | 1 => 4
  | _ => 7

/-- Modelled from the spec: serialization of one numeric segment — the
4-bit mode indicator 0001, the character count in the bracket's numeric
count-field width, then the numeric payload. -/
def encodeNumericSegment (de : dataEncoder) (content : List Nat) :
    List Bool :=
  appendUint32 (appendUint32 [] 1 4) content.length
      de.numNumericCharCountBits
    ++ numericPayload content

/-- Modelled from the spec: `dataEncoder.encode`. The classifier turns
all-digit content into a single numeric segment; empty content is an
encode error. Content mixing in non-digit bytes would engage the
alphanumeric/byte modes and the segment optimizer, which are outside
this model (no property here quantifies over such content). -/
def dataEncoderEncode (de : dataEncoder) (content : List Nat) :
    Except String (List Bool) :=
  if content.isEmpty then Except.error "no data to encode"
  else if content.all isDigit then
    Except.ok (encodeNumericSegment de content)
  else Except.error "content mode unsupported in this model"

/-- source: the bracket loop of `New` (part_017 lines 69-87): try each
encoder bracket in order; an encode error is recorded and the next
bracket tried; a successful encode picks a version, and the first
bracket with a fitting version stops the loop. After the loop, a
recorded encode error from the last attempt is surfaced, and otherwise
a missing version yields the single capacity error. -/
def newLoop (content : List Nat) (level : RecoveryLevel) :
    List dataEncoder → Option String → Except String (Nat × List Bool)
  | [], err =>
    match err with
    | some e => Except.error e
    | none => Except.error "content too long to encode"
  | de :: rest, _ =>
    match dataEncoderEncode de content with
    | Except.error e => newLoop content level rest (some e)
    | Except.ok encoded =>
      match chooseQRCodeVersion level de encoded.length with
      | some v => Except.ok (v.version, encoded)
      | none => newLoop content level rest none

/-- source: `New` (part_017 lines 63-106), returning the chosen version
number and the encoded stream in place of the full QRCode record; the
error branch carries no partial result. -/
def New (content : List Nat) (level : RecoveryLevel) :
    Except String (Nat × List Bool) :=
  newLoop content level allDataEncoder none

theorem appendUint32_length (b : List Bool) (value numBits : Nat) :
    (appendUint32 b value numBits).length = b.length + numBits := by
  unfold appendUint32
  rw [List.length_append, List.length_map, List.length_range]

theorem numericPayload_length : ∀ ds : List Nat,
    (numericPayload ds).length
      = 10 * (ds.length / 3) + numericTailBits (ds.length % 3)
  | [] => rfl
  | [d1] => by
    show (appendUint32 [] (d1 - 48) 4).length = _
    rw [appendUint32_length]
    norm_num [numericTailBits]
  | [d1, d2] => by
    show (appendUint32 [] ((d1 - 48) * 10 + (d2 - 48)) 7).length = _
    rw [appendUint32_length]
    norm_num [numericTailBits]
  | d1 :: d2 :: d3 :: rest => by
    show (appendUint32 [] ((d1 - 48) * 100 + (d2 - 48) * 10 + (d3 - 48)) 10
        ++ numericPayload rest).length = _
    rw [List.length_append, appendUint32_length,
      numericPayload_length rest]
    simp only [List.length_cons, List.length_nil]
    rw [show rest.length + 1 + 1 + 1 = rest.length + 3 from by omega,
      show (rest.length + 3) / 3 = rest.length / 3 + 1 from by omega,
      show (rest.length + 3) % 3 = rest.length % 3 from by omega]
    omega

theorem encodeNumericSegment_length (de : dataEncoder)
    (content : List Nat) :
    (encodeNumericSegment de content).length
      = 4 + de.numNumericCharCountBits
        + (10 * (content.length / 3) + numericTailBits (content.length % 3)) := by
  unfold encodeNumericSegment
  rw [List.length_append, appendUint32_length, appendUint32_length,
    numericPayload_length, List.length_nil]

theorem all_isDigit_replicate (n : Nat) :
    (List.replicate n 48).all isDigit = true := by
  induction n with
  | zero => rfl
  | succ m ih => rw [List.replicate_succ, List.all_cons, ih]; rfl

theorem dataEncoderEncode_digits (de : dataEncoder) (n : Nat)
    (h : 0 < n) :
    dataEncoderEncode de (List.replicate n 48)
      = Except.ok (encodeNumericSegment de (List.replicate n 48)) := by
  obtain ⟨m, rfl⟩ : ∃ m, n = m + 1 := ⟨n - 1, by omega⟩
  unfold dataEncoderEncode
  rw [if_neg (by rw [List.replicate_succ, List.isEmpty_cons]; exact
    Bool.false_ne_true), if_pos (all_isDigit_replicate (m + 1))]

theorem newLoop_cons_none (content : List Nat) (level : RecoveryLevel)
    (de : dataEncoder) (rest : List dataEncoder) (err : Option String)
    (stream : List Bool)
    (hok : dataEncoderEncode de content = Except.ok stream)
    (hch : chooseQRCodeVersion level de stream.length = none) :
    newLoop content level (de :: rest) err
      = newLoop content level rest none := by
  show (match dataEncoderEncode de content with
    | Except.error e => newLoop content level rest (some e)
    | Except.ok encoded =>
      match chooseQRCodeVersion level de encoded.length with
      | some v => Except.ok (v.version, encoded)
      | none => newLoop content level rest none) = _
  rw [hok]
  show (match chooseQRCodeVersion level de stream.length with
    | some v => Except.ok (v.version, stream)
    | none => newLoop content level rest none) = _
  rw [hch]

theorem newLoop_cons_some (content : List Nat) (level : RecoveryLevel)
    (de : dataEncoder) (rest : List dataEncoder) (err : Option String)
    (stream : List Bool) (v : qrCodeVersion)
    (hok : dataEncoderEncode de content = Except.ok stream)
    (hch : chooseQRCodeVersion level de stream.length = some v) :
    newLoop content level (de :: rest) err
      = Except.ok (v.version, stream) := by
  show (match dataEncoderEncode de content with
    | Except.error e => newLoop content level rest (some e)
    | Except.ok encoded =>
      match chooseQRCodeVersion level de encoded.length with
      | some w => Except.ok (w.version, encoded)
      | none => newLoop content level rest none) = _
  rw [hok]
  show (match chooseQRCodeVersion level de stream.length with
    | some w => Except.ok (w.version, stream)
    | none => newLoop content level rest none) = _
  rw [hch]

theorem newLoop_nil_none (content : List Nat) (level : RecoveryLevel) :
    newLoop content level [] none
      = Except.error "content too long to encode" := rfl

/-- C6: `New` on exactly 7089 decimal digits at level Low succeeds and
selects version 40, while on 7090 digits it returns no partial result,
only the single capacity error "content too long to encode". -/
theorem New_capacity_boundary :
    (∃ stream, New (List.replicate 7089 48) RecoveryLevel.Low
        = Except.ok (40, stream)) ∧
    New (List.replicate 7090 48) RecoveryLevel.Low
      = Except.error "content too long to encode" := by
  constructor
  · refine ⟨encodeNumericSegment dataEncoderType27To40
      (List.replicate 7089 48), ?_⟩
    show newLoop (List.replicate 7089 48) RecoveryLevel.Low
      [dataEncoderType1To9, dataEncoderType10To26, dataEncoderType27To40]
      none = _
    rw [newLoop_cons_none _ _ _ _ _ _
        (dataEncoderEncode_digits dataEncoderType1To9 7089 (by omega))
        (by rw [encodeNumericSegment_length, List.length_replicate]; decide),
      newLoop_cons_none _ _ _ _ _ _
        (dataEncoderEncode_digits dataEncoderType10To26 7089 (by omega))
        (by rw [encodeNumericSegment_length, List.length_replicate]; decide)]
    have h3 : (chooseQRCodeVersion RecoveryLevel.Low dataEncoderType27To40
        (encodeNumericSegment dataEncoderType27To40
          (List.replicate 7089 48)).length).map qrCodeVersion.version
        = some 40 := by
      rw [encodeNumericSegment_length, List.length_replicate]; decide
    cases hv : chooseQRCodeVersion RecoveryLevel.Low dataEncoderType27To40
        (encodeNumericSegment dataEncoderType27To40
          (List.replicate 7089 48)).length with
    | none =>
      rw [hv] at h3
      exact absurd h3 (by simp)
    | some v =>
      rw [hv, Option.map_some', Option.some_inj] at h3
      rw [newLoop_cons_some _ _ _ _ _ _ v
        (dataEncoderEncode_digits dataEncoderType27To40 7089 (by omega))
        hv, h3]
  · show newLoop (List.replicate 7090 48) RecoveryLevel.Low
      [dataEncoderType1To9, dataEncoderType10To26, dataEncoderType27To40]
      none = _
    rw [newLoop_cons_none _ _ _ _ _ _
        (dataEncoderEncode_digits dataEncoderType1To9 7090 (by omega))
        (by rw [encodeNumericSegment_length, List.length_replicate]; decide),
      newLoop_cons_none _ _ _ _ _ _
        (dataEncoderEncode_digits dataEncoderType10To26 7090 (by omega))
        (by rw [encodeNumericSegment_length, List.length_replicate]; decide),
      newLoop_cons_none _ _ _ _ _ _
        (dataEncoderEncode_digits dataEncoderType27To40 7090 (by omega))
        (by rw [encodeNumericSegment_length, List.length_replicate]; decide),
      newLoop_nil_none]

end QR
